import Mathlib

/-!
The noise engine and curve functions of `script.js`.

A shallow embedding of the `Perlin` class, the `fractal` sampler and the five
entries of the `shapes` table.

* JavaScript numbers are read as elements of a linearly ordered field `α`
  with a floor function (`Math.floor`); the theorems instantiate `α := ℝ`.
  Rounding of IEEE doubles is not modelled.
* `Math.sin`, `Math.cos` and `Math.PI` are supplied by the host: they are a
  parameter `M : MathLib α`; `realMath` is the instance with the real sine,
  cosine and pi.
* Calls on the canvas context and the other browser objects are recorded as a
  list of commands, in the order in which the script issues them.
* The two caches of a `Perlin` object (`gradients`, `memory`) are finite maps
  keyed by the pair of coordinates; every method that touches them returns
  the new object state next to its result.
-/

set_option linter.unusedSectionVars false

namespace ShivaTandav

/-- The members of the host `Math` object that the script uses. -/
structure MathLib (α : Type) where
  /-- Stands for `Math.sin`. -/
  sin : α → α
  /-- Stands for `Math.cos`. -/
  cos : α → α
  /-- Stands for the constant `Math.PI`. -/
  PI : α

/-- The `Math` object over the reals. -/
noncomputable def realMath : MathLib ℝ := ⟨Real.sin, Real.cos, Real.pi⟩

/-- State of a `Perlin` object: `this.gradients` and `this.memory`, both keyed
by the coordinate pair `[a, b]`. -/
structure Perlin (α : Type) where
  /-- Cache of lattice gradients `{x, y}`. -/
  gradients : α × α → Option (α × α)
  /-- Cache of noise values. -/
  memory : α × α → Option α

/-- The globals `centerX`, `centerY`, `maxRadius`. -/
structure Scene (α : Type) where
  centerX : α
  centerY : α
  maxRadius : α

section Defs

variable {α : Type} [LinearOrderedField α] [FloorRing α]

/-- Lines 9-11: the globals computed from `canvas.width`, `canvas.height`. -/
def Scene.ofCanvas (width height : α) : Scene α :=
  { centerX := width / 2
    centerY := height / 2
    maxRadius := min width height / 2 * 0.9 }

/-- The constructor: `new Perlin()` has two empty caches. -/
def Perlin.new : Perlin α :=
  { gradients := fun _ => none
    memory := fun _ => none }

/-- `Perlin.randomGradient(ix, iy)`, returned as the pair `(x, y)`. -/
def randomGradient (M : MathLib α) (ix iy : α) : α × α :=
  let w : α := 8 * 32
  let s : α := w / 2
  let a : α := ix * s
  let b : α := iy * s
  let random : α :=
    2920 * M.sin (a * 21942 + b * 171324 + 8912) * M.cos (a * 23157 * b * 217832 + 9758)
  (M.cos random, M.sin random)

/-- `Perlin.dotProductGrid(ix, iy, x, y)`: the dot product and the object state
after the gradient cache was consulted (and filled on a miss). -/
def dotProductGrid (M : MathLib α) (p : Perlin α) (ix iy x y : α) : α × Perlin α :=
  let distance : α × α := (x - ix, y - iy)
  match p.gradients (ix, iy) with
  | some gradient => (distance.1 * gradient.1 + distance.2 * gradient.2, p)
  | none =>
    let gradient := randomGradient M ix iy
    (distance.1 * gradient.1 + distance.2 * gradient.2,
      { p with gradients := Function.update p.gradients (ix, iy) (some gradient) })

/-- `Perlin.smootherstep(x)`. -/
def smootherstep (x : α) : α :=
  6 * x ^ 5 - 15 * x ^ 4 + 10 * x ^ 3

/-- `Perlin.interpolate(x0, x1, alpha)`. -/
def interpolate (x0 x1 alpha : α) : α :=
  x0 * (1 - alpha) + alpha * x1

/-- `Perlin.get(x, y)`: the returned value and the object state afterwards. -/
def get (M : MathLib α) (p : Perlin α) (x y : α) : α × Perlin α :=
  match p.memory (x, y) with
  | some v => (v, p)
  | none =>
    let x0 : α := (⌊x⌋ : ℤ)
    let x1 : α := x0 + 1
    let y0 : α := (⌊y⌋ : ℤ)
    let y1 : α := y0 + 1
    let sx := smootherstep (x - x0)
    let sy := smootherstep (y - y0)
    let r0 := dotProductGrid M p x0 y0 x y
    let r1 := dotProductGrid M r0.2 x1 y0 x y
    let ix0 := interpolate r0.1 r1.1 sx
    let r2 := dotProductGrid M r1.2 x0 y1 x y
    let r3 := dotProductGrid M r2.2 x1 y1 x y
    let ix1 := interpolate r2.1 r3.1 sx
    let value := interpolate ix0 ix1 sy
    (value, { r3.2 with memory := Function.update r3.2.memory (x, y) (some value) })

/-- The loop of `fractal`, with `n` iterations still to run. The sampler
`noise` (in the script: `perlin.get`) threads its own state `σ`. -/
def fractalLoop {σ : Type} (noise : σ → α → α → α × σ) (x y time : α) :
    ℕ → σ → α → α → α → α × σ
  | 0, s, value, _, _ => (value, s)
  | n + 1, s, value, frequency, amplitude =>
    let r := noise s (x * frequency + time) (y * frequency + time)
    fractalLoop noise x y time n r.2 (value + amplitude * r.1) (frequency * 2) (amplitude * 0.5)

/-- The body of `fractal` for an arbitrary sampler and loop bound `octaves`. -/
def fractalWith {σ : Type} (noise : σ → α → α → α × σ) (octaves : ℕ) (s : σ)
    (x y time : α) : α × σ :=
  fractalLoop noise x y time octaves s 0 1 1

/-- `fractal(x, y, time)`: five octaves of `perlin.get`. -/
def fractal (M : MathLib α) (p : Perlin α) (x y time : α) : α × Perlin α :=
  fractalWith (get M) 5 p x y time

/-- The local `radius` of `shapes[0]` (nataraja). -/
def natarajaRadius (M : MathLib α) (c : Scene α) (t : α) : α :=
  c.maxRadius * 0.35 * (1 + M.cos (3 * t))

/-- `shapes[0].func`, nataraja. -/
def nataraja (M : MathLib α) (c : Scene α) (p : Perlin α) (t time frequencyData : α) :
    (α × α) × Perlin α :=
  let radius := natarajaRadius M c t
  let x := c.centerX + radius * M.cos t * M.sin (time + frequencyData / 255)
  let y := c.centerY + radius * M.sin t * M.cos (time + frequencyData / 255)
  ((x, y), p)

/-- The local `radius` of `shapes[1]` (drum). -/
def drumRadius (M : MathLib α) (c : Scene α) (t : α) : α :=
  c.maxRadius * 0.25 * (1 + M.sin (4 * t))

/-- `shapes[1].func`, drum. -/
def drum (M : MathLib α) (c : Scene α) (p : Perlin α) (t time frequencyData : α) :
    (α × α) × Perlin α :=
  let radius := drumRadius M c t
  let f1 := fractal M p t (frequencyData / 200) time
  let x := c.centerX + radius * M.cos (t + f1.1)
  let f2 := fractal M f1.2 t (frequencyData / 200) time
  let y := c.centerY + radius * M.sin (t + f2.1)
  ((x, y), f2.2)

/-- The local `radius` of `shapes[2]` (trident); it samples `fractal`. -/
def tridentRadius (M : MathLib α) (c : Scene α) (p : Perlin α) (t time : α) :
    α × Perlin α :=
  let f0 := fractal M p t time time
  (c.maxRadius * 0.3 * (1 + f0.1), f0.2)

/-- `shapes[2].func`, trident. -/
def trident (M : MathLib α) (c : Scene α) (p : Perlin α) (t time frequencyData : α) :
    (α × α) × Perlin α :=
  let r := tridentRadius M c p t time
  let radius := r.1
  let f1 := fractal M r.2 t (frequencyData / 100) time
  let x := c.centerX + radius * M.cos (t + f1.1)
  let f2 := fractal M f1.2 t (frequencyData / 100) time
  let y := c.centerY + radius * M.sin (t + f2.1)
  ((x, y), f2.2)

/-- The local `radius` of `shapes[3]` (thirdEye). -/
def thirdEyeRadius (M : MathLib α) (c : Scene α) (t : α) : α :=
  c.maxRadius * 0.2 * (1 + M.sin (3 * t))

/-- `shapes[3].func`, thirdEye. -/
def thirdEye (M : MathLib α) (c : Scene α) (p : Perlin α) (t time _frequencyData : α) :
    (α × α) × Perlin α :=
  let radius := thirdEyeRadius M c t
  let x := c.centerX + radius * M.cos (t + M.sin time)
  let y := c.centerY + radius * M.sin (t + M.cos time)
  ((x, y), p)

/-- The local `radius` of `shapes[4]` (om). -/
def omRadius (M : MathLib α) (c : Scene α) (t : α) : α :=
  c.maxRadius * 0.25 * (1 + M.sin (4 * t))

/-- `shapes[4].func`, om. -/
def om (M : MathLib α) (c : Scene α) (p : Perlin α) (t time frequencyData : α) :
    (α × α) × Perlin α :=
  let radius := omRadius M c t
  let f1 := fractal M p t (frequencyData / 200) time
  let x := c.centerX + radius * M.cos (t + f1.1)
  let f2 := fractal M f1.2 t (frequencyData / 200) time
  let y := c.centerY + radius * M.sin (t + f2.1)
  ((x, y), f2.2)

/-- Type of a curve function `(t, time, frequencyData) => [x, y]`, with the
state of the global `perlin` object threaded through. -/
abbrev CurveFn (α : Type) : Type :=
  Perlin α → α → α → α → (α × α) × Perlin α

/-- The table `shapes`: name and curve function, in source order. -/
def shapes (M : MathLib α) (c : Scene α) : List (String × CurveFn α) :=
  [("nataraja", nataraja M c), ("drum", drum M c), ("trident", trident M c),
   ("thirdEye", thirdEye M c), ("om", om M c)]

/-- The value `get` computes on a fresh object, where no cache entry exists. -/
def noise (M : MathLib α) (x y : α) : α :=
  (get M Perlin.new x y).1

/-- Every stored gradient is the one `randomGradient` computes for its key. -/
def Perlin.GradValid (M : MathLib α) (p : Perlin α) : Prop :=
  ∀ k g, p.gradients k = some g → g = randomGradient M k.1 k.2

/-- Every stored value is the cache-free noise value of its key. -/
def Perlin.MemValid (M : MathLib α) (p : Perlin α) : Prop :=
  ∀ k v, p.memory k = some v → v = noise M k.1 k.2

/-- Both caches hold only what the cache-free computation gives. Holds for
`Perlin.new` and is kept by every method. -/
def Perlin.Valid (M : MathLib α) (p : Perlin α) : Prop :=
  p.GradValid M ∧ p.MemValid M

/-- The interpolation that `get` performs once the cell corner `(x0, y0)` is
fixed, with the gradients taken straight from `randomGradient`. Used to state
what `get` computes inside one lattice cell. -/
def cellValue (M : MathLib α) (x0 y0 x y : α) : α :=
  let g00 := randomGradient M x0 y0
  let g10 := randomGradient M (x0 + 1) y0
  let g01 := randomGradient M x0 (y0 + 1)
  let g11 := randomGradient M (x0 + 1) (y0 + 1)
  let sx := smootherstep (x - x0)
  let sy := smootherstep (y - y0)
  interpolate
    (interpolate ((x - x0) * g00.1 + (y - y0) * g00.2)
      ((x - (x0 + 1)) * g10.1 + (y - y0) * g10.2) sx)
    (interpolate ((x - x0) * g01.1 + (y - (y0 + 1)) * g01.2)
      ((x - (x0 + 1)) * g11.1 + (y - (y0 + 1)) * g11.2) sx)
    sy

/-- State after a sequence of calls `perlin.get(x, y)`, one per entry of the
list, results discarded. -/
def getAll (M : MathLib α) : Perlin α → List (α × α) → Perlin α
  | p, [] => p
  | p, (x, y) :: rest => getAll M (get M p x y).2 rest

/-- The palette `colors`. -/
def colors : List String :=
  ["#ff00ff", "#00ffff", "#00ff00", "#ff0000", "#ffff00"]

/-- The constant `bufferLength`: `analyser.frequencyBinCount`, half of the
`fftSize` of 256 set on line 23. -/
def bufferLength : ℕ := 128

/-- Calls that `animate` and `drawThread` make on the browser objects. -/
inductive Cmd (α : Type) where
  | requestAnimationFrame : Cmd α
  | clearRect (x y w h : α) : Cmd α
  | getByteFrequencyData : Cmd α
  | strokeStyle (color : String) : Cmd α
  | lineWidth (w : α) : Cmd α
  | beginPath : Cmd α
  | lineTo (x y : α) : Cmd α
  | stroke : Cmd α

/-- Recognises `ctx.stroke()`. -/
def Cmd.isStroke : Cmd α → Bool
  | Cmd.stroke => true
  | _ => false

/-- The colour of an assignment to `ctx.strokeStyle`. -/
def Cmd.strokeColor : Cmd α → Option String
  | Cmd.strokeStyle color => some color
  | _ => none

/-- The point of a `ctx.lineTo(x, y)`. -/
def Cmd.linePoint : Cmd α → Option (α × α)
  | Cmd.lineTo x y => some (x, y)
  | _ => none

/-- The variant of the loop of `drawThread`: the number of steps of 0.01 that
still fit below `Math.PI * 2`, plus one. -/
def traceSteps (M : MathLib α) (t : α) : ℕ :=
  (⌊(M.PI * 2 - t) / 0.01⌋ + 1).toNat

/-- The loop of `drawThread`, entered with loop variable `t`: the points handed
to `ctx.lineTo`, in order, and the state of the noise object afterwards. -/
def traceLoop {α : Type} [LinearOrderedField α] [FloorRing α] (M : MathLib α)
    (func : CurveFn α) (time frequencyData : α) (t : α) (p : Perlin α) :
    List (α × α) × Perlin α :=
  if h : t ≤ M.PI * 2 then
    let r := func p t time frequencyData
    let rest := traceLoop M func time frequencyData (t + 0.01) r.2
    (r.1 :: rest.1, rest.2)
  else
    ([], p)
termination_by traceSteps M t
decreasing_by
  have hpos : (0 : α) < 0.01 := by norm_num
  have h0 : (0 : α) ≤ (M.PI * 2 - t) / 0.01 := div_nonneg (by linarith) hpos.le
  have hfl : 0 ≤ ⌊(M.PI * 2 - t) / 0.01⌋ := Int.floor_nonneg.mpr h0
  have e : (M.PI * 2 - (t + 0.01)) / 0.01 = (M.PI * 2 - t) / 0.01 - 1 := by
    field_simp
    ring
  unfold traceSteps
  rw [e, Int.floor_sub_one]
  omega

/-- `drawThread(frequencyData, color, func)`; `time` is the value read from
`audio.currentTime`. -/
def drawThread (M : MathLib α) (time : α) (p : Perlin α) (frequencyData : α)
    (color : String) (func : CurveFn α) : List (Cmd α) × Perlin α :=
  let r := traceLoop M func time frequencyData 0 p
  ([Cmd.strokeStyle color, Cmd.lineWidth 2, Cmd.beginPath]
      ++ r.1.map (fun q => Cmd.lineTo q.1 q.2) ++ [Cmd.stroke], r.2)

/-- The loop of `animate` from index `i` on, over the entries of `shapes` that
are left. `dataArray` is the array as filled by `getByteFrequencyData`;
`currentTime i` is the clock value that the call for index `i` reads. -/
def animateLoop (M : MathLib α) (dataArray : Fin bufferLength → ℕ) (currentTime : ℕ → α) :
    ℕ → List (String × CurveFn α) → Perlin α → List (Cmd α) × Perlin α
  | _, [], p => ([], p)
  | i, shape :: rest, p =>
    let frequencyData : α := (dataArray ⟨i % bufferLength, Nat.mod_lt i (by decide)⟩ : ℕ)
    let color := colors.get ⟨i % colors.length, Nat.mod_lt i (by decide)⟩
    let r := drawThread M (currentTime i) p frequencyData color shape.2
    let r2 := animateLoop M dataArray currentTime (i + 1) rest r.2
    (r.1 ++ r2.1, r2.2)

/-- One call of `animate()`: the commands of one frame. -/
def animate (M : MathLib α) (c : Scene α) (canvasWidth canvasHeight : α)
    (dataArray : Fin bufferLength → ℕ) (currentTime : ℕ → α) (p : Perlin α) :
    List (Cmd α) × Perlin α :=
  let r := animateLoop M dataArray currentTime 0 (shapes M c) p
  ([Cmd.requestAnimationFrame, Cmd.clearRect 0 0 canvasWidth canvasHeight,
      Cmd.getByteFrequencyData] ++ r.1, r.2)

/-- What the click handler does besides updating `isPlaying`. -/
inductive Action where
  | resume
  | play
  | animate
  | hideStartButton
  deriving DecidableEq, Repr

/-- The top-level variables that the event handlers read or write: the canvas
size, the constants of lines 9-11 and `isPlaying`. -/
structure Page (α : Type) where
  canvasWidth : α
  canvasHeight : α
  scene : Scene α
  isPlaying : Bool

/-- Lines 6-17: the state when the script has been loaded in a window of the
given inner size. -/
def Page.load (innerWidth innerHeight : α) : Page α :=
  { canvasWidth := innerWidth
    canvasHeight := innerHeight
    scene := Scene.ofCanvas innerWidth innerHeight
    isPlaying := false }

/-- The `click` listener of `startButton`: new state and the actions performed. -/
def Page.onClick (pg : Page α) : Page α × List Action :=
  if !pg.isPlaying then
    ({ pg with isPlaying := true },
      [Action.resume, Action.play, Action.animate, Action.hideStartButton])
  else
    (pg, [])

/-- The `resize` listener of `window`. -/
def Page.onResize (pg : Page α) (innerWidth innerHeight : α) : Page α :=
  { pg with canvasWidth := innerWidth, canvasHeight := innerHeight }

/-- The state after `n` clicks on the start button and all actions performed
by them, in order. -/
def Page.clicks : ℕ → Page α → Page α × List Action
  | 0, pg => (pg, [])
  | n + 1, pg =>
    let r := pg.onClick
    let r2 := Page.clicks n r.1
    (r2.1, r.2 ++ r2.2)

/-- Evaluates a curve function at the angles of a list, in order, threading the
state of the noise object. Used to state which angles the loop of
`drawThread` visits. -/
def evalAt (func : CurveFn α) (time frequencyData : α) :
    List α → Perlin α → List (α × α) × Perlin α
  | [], p => ([], p)
  | t :: ts, p =>
    let r := func p t time frequencyData
    let rest := evalAt func time frequencyData ts r.2
    (r.1 :: rest.1, rest.2)

end Defs

/-! ## Cache transparency (shared lemmas) -/

section Cache

variable {α : Type} [LinearOrderedField α] [FloorRing α]

theorem new_gradValid (M : MathLib α) : (Perlin.new : Perlin α).GradValid M := by
  intro k g h
  simp [Perlin.new] at h

theorem new_memValid (M : MathLib α) : (Perlin.new : Perlin α).MemValid M := by
  intro k v h
  simp [Perlin.new] at h

theorem new_valid (M : MathLib α) : (Perlin.new : Perlin α).Valid M :=
  ⟨new_gradValid M, new_memValid M⟩

theorem dotProductGrid_fst (M : MathLib α) (p : Perlin α) (hg : p.GradValid M)
    (ix iy x y : α) :
    (dotProductGrid M p ix iy x y).1
      = (x - ix) * (randomGradient M ix iy).1 + (y - iy) * (randomGradient M ix iy).2 := by
  unfold dotProductGrid
  cases h : p.gradients (ix, iy) with
  | none => simp
  | some g =>
    have := hg _ _ h
    simp only at this
    simp [this]

theorem dotProductGrid_memory (M : MathLib α) (p : Perlin α) (ix iy x y : α) :
    (dotProductGrid M p ix iy x y).2.memory = p.memory := by
  unfold dotProductGrid
  cases h : p.gradients (ix, iy) <;> simp

theorem dotProductGrid_gradValid (M : MathLib α) (p : Perlin α) (hg : p.GradValid M)
    (ix iy x y : α) : (dotProductGrid M p ix iy x y).2.GradValid M := by
  unfold dotProductGrid
  cases h : p.gradients (ix, iy) with
  | some g => simpa using hg
  | none =>
    intro k g hk
    simp only at hk
    by_cases hkk : k = (ix, iy)
    · subst hkk
      simp at hk
      exact hk.symm
    · rw [Function.update_noteq hkk] at hk
      exact hg k g hk

theorem get_fst_of_miss (M : MathLib α) (p : Perlin α) (hg : p.GradValid M) (x y : α)
    (hm : p.memory (x, y) = none) :
    (get M p x y).1 = cellValue M (⌊x⌋ : ℤ) (⌊y⌋ : ℤ) x y := by
  have h1 := dotProductGrid_gradValid M _ hg (⌊x⌋ : ℤ) (⌊y⌋ : ℤ) x y
  have h2 := dotProductGrid_gradValid M _ h1 ((⌊x⌋ : ℤ) + 1) (⌊y⌋ : ℤ) x y
  have h3 := dotProductGrid_gradValid M _ h2 (⌊x⌋ : ℤ) ((⌊y⌋ : ℤ) + 1) x y
  simp only [get, hm, cellValue]
  rw [dotProductGrid_fst M _ h3, dotProductGrid_fst M _ h2, dotProductGrid_fst M _ h1,
    dotProductGrid_fst M _ hg]

theorem noise_eq_cellValue (M : MathLib α) (x y : α) :
    noise M x y = cellValue M (⌊x⌋ : ℤ) (⌊y⌋ : ℤ) x y :=
  get_fst_of_miss M Perlin.new (new_gradValid M) x y rfl

theorem get_fst (M : MathLib α) (p : Perlin α) (hv : p.Valid M) (x y : α) :
    (get M p x y).1 = noise M x y := by
  cases hm : p.memory (x, y) with
  | none => rw [get_fst_of_miss M p hv.1 x y hm, noise_eq_cellValue]
  | some v =>
    have := hv.2 _ _ hm
    simp only at this
    simp [get, hm, this]

theorem get_valid (M : MathLib α) (p : Perlin α) (hv : p.Valid M) (x y : α) :
    (get M p x y).2.Valid M := by
  cases hm : p.memory (x, y) with
  | some v => simpa [get, hm] using hv
  | none =>
    have h1 := dotProductGrid_gradValid M _ hv.1 (⌊x⌋ : ℤ) (⌊y⌋ : ℤ) x y
    have h2 := dotProductGrid_gradValid M _ h1 ((⌊x⌋ : ℤ) + 1) (⌊y⌋ : ℤ) x y
    have h3 := dotProductGrid_gradValid M _ h2 (⌊x⌋ : ℤ) ((⌊y⌋ : ℤ) + 1) x y
    have h4 := dotProductGrid_gradValid M _ h3 ((⌊x⌋ : ℤ) + 1) ((⌊y⌋ : ℤ) + 1) x y
    have hval := get_fst M p hv x y
    simp only [get, hm] at hval ⊢
    refine ⟨h4, ?_⟩
    intro k v hk
    simp only at hk
    by_cases hkk : k = (x, y)
    · subst hkk
      simp only [Function.update_same, Option.some.injEq] at hk
      rw [← hk]
      exact hval
    · rw [Function.update_noteq hkk] at hk
      simp only [dotProductGrid_memory] at hk
      exact hv.2 k v hk

end Cache

/-! ## The octave loop (shared lemmas) -/

section Octaves

variable {α : Type} [LinearOrderedField α] [FloorRing α]

/-- What the loop returns when the sampler computes a pure function `f` on
every state satisfying an invariant `I` that the sampler keeps. -/
theorem fractalLoop_spec {σ : Type} (noise : σ → α → α → α × σ) (I : σ → Prop)
    (f : α → α → α)
    (hf : ∀ s u v, I s → (noise s u v).1 = f u v ∧ I (noise s u v).2)
    (x y time : α) :
    ∀ (n : ℕ) (s : σ) (value frequency amplitude : α), I s →
      (fractalLoop noise x y time n s value frequency amplitude).1
          = value + ∑ i in Finset.range n,
              amplitude * (1 / 2) ^ i
                * f (x * (frequency * 2 ^ i) + time) (y * (frequency * 2 ^ i) + time)
        ∧ I (fractalLoop noise x y time n s value frequency amplitude).2 := by
  intro n
  induction n with
  | zero =>
    intro s value frequency amplitude hs
    simp [fractalLoop, hs]
  | succ n ih =>
    intro s value frequency amplitude hs
    obtain ⟨h1, h2⟩ := hf s (x * frequency + time) (y * frequency + time) hs
    obtain ⟨e, hI⟩ := ih (noise s (x * frequency + time) (y * frequency + time)).2
      (value + amplitude * (noise s (x * frequency + time) (y * frequency + time)).1)
      (frequency * 2) (amplitude * 0.5) h2
    refine ⟨?_, hI⟩
    simp only [fractalLoop]
    rw [e, h1, Finset.sum_range_succ']
    have h5 : (0.5 : α) = 1 / 2 := by norm_num
    simp only [pow_zero, mul_one, h5, pow_succ]
    rw [add_assoc, add_comm (amplitude * f _ _)]
    congr 2
    apply Finset.sum_congr rfl
    intro i _
    have e1 : frequency * 2 * 2 ^ i = frequency * (2 ^ i * 2) := by ring
    have e2 : amplitude * (1 / 2) * (1 / 2) ^ i = amplitude * ((1 / 2) ^ i * (1 / 2)) := by ring
    rw [e1, e2]

theorem fractal_fst (M : MathLib α) (p : Perlin α) (hv : p.Valid M) (x y time : α) :
    (fractal M p x y time).1
      = ∑ i in Finset.range 5, (1 / 2) ^ i * noise M (x * 2 ^ i + time) (y * 2 ^ i + time) := by
  have h := (fractalLoop_spec (get M) (Perlin.Valid M) (noise M)
    (fun s u v hs => ⟨get_fst M s hs u v, get_valid M s hs u v⟩) x y time 5 p 0 1 1 hv).1
  simpa [fractal, fractalWith] using h

theorem fractal_valid (M : MathLib α) (p : Perlin α) (hv : p.Valid M) (x y time : α) :
    (fractal M p x y time).2.Valid M :=
  (fractalLoop_spec (get M) (Perlin.Valid M) (noise M)
    (fun s u v hs => ⟨get_fst M s hs u v, get_valid M s hs u v⟩) x y time 5 p 0 1 1 hv).2

end Octaves

/-! ## Elementary facts about the pieces of `get` -/

section Pieces

variable {α : Type} [LinearOrderedField α] [FloorRing α]

theorem smootherstep_zero : smootherstep (0 : α) = 0 := by
  simp [smootherstep]

theorem smootherstep_one : smootherstep (1 : α) = 1 := by
  simp only [smootherstep]
  norm_num

theorem interpolate_zero (a b : α) : interpolate a b 0 = a := by
  simp [interpolate]

theorem interpolate_one (a b : α) : interpolate a b 1 = b := by
  simp [interpolate]

/-- At its right edge `x = x0 + 1` a cell gives the value of the next cell at
its left edge. -/
theorem cellValue_right_edge (M : MathLib α) (x0 y0 y : α) :
    cellValue M x0 y0 (x0 + 1) y = cellValue M (x0 + 1) y0 (x0 + 1) y := by
  simp only [cellValue, add_sub_cancel_left, sub_self, smootherstep_zero, smootherstep_one,
    interpolate_zero, interpolate_one]

/-- On a lattice point the noise is zero, whatever the gradients are. -/
theorem noise_lattice (M : MathLib α) (m n : ℤ) : noise M (m : α) (n : α) = 0 := by
  rw [noise_eq_cellValue]
  simp [cellValue, smootherstep_zero, interpolate_zero]

end Pieces

/-! ## Bounds on the noise value (shared lemmas) -/

theorem smootherstep_nonneg (u : ℝ) (h0 : 0 ≤ u) : 0 ≤ smootherstep u := by
  have e : smootherstep u = u ^ 3 * (6 * (u - 5 / 4) ^ 2 + 5 / 8) := by
    simp only [smootherstep]; ring
  rw [e]
  positivity

theorem smootherstep_le_one (u : ℝ) (h0 : 0 ≤ u) (h1 : u ≤ 1) : smootherstep u ≤ 1 := by
  have e : 1 - smootherstep u = (1 - u) ^ 3 * (6 * u ^ 2 + 3 * u + 1) := by
    simp only [smootherstep]; ring
  have h2 : 0 ≤ 1 - u := by linarith
  have : 0 ≤ (1 - u) ^ 3 * (6 * u ^ 2 + 3 * u + 1) := by positivity
  linarith

/-- The blend of the distances to the two ends of a unit interval never exceeds one half. -/
theorem blend_le_half (u : ℝ) :
    interpolate u (1 - u) (smootherstep u) ≤ 1 / 2 := by
  have e : 1 / 2 - interpolate u (1 - u) (smootherstep u)
      = 2 * (u - 1 / 2) ^ 2 * (6 * ((u - 1 / 2) ^ 2 - 5 / 12) ^ 2 + 5 / 6) := by
    simp only [interpolate, smootherstep]; ring
  have : 0 ≤ 2 * (u - 1 / 2) ^ 2 * (6 * ((u - 1 / 2) ^ 2 - 5 / 12) ^ 2 + 5 / 6) := by positivity
  linarith

theorem abs_interpolate_le (a b A B s : ℝ) (hs0 : 0 ≤ s) (hs1 : s ≤ 1)
    (ha : |a| ≤ A) (hb : |b| ≤ B) : |interpolate a b s| ≤ interpolate A B s := by
  have h1 : 0 ≤ 1 - s := by linarith
  simp only [interpolate]
  calc |a * (1 - s) + s * b| ≤ |a * (1 - s)| + |s * b| := abs_add _ _
    _ = |a| * (1 - s) + s * |b| := by rw [abs_mul, abs_mul, abs_of_nonneg h1, abs_of_nonneg hs0]
    _ ≤ A * (1 - s) + s * B := by
        have := mul_le_mul_of_nonneg_right ha h1
        have := mul_le_mul_of_nonneg_left hb hs0
        linarith

theorem abs_dot_le (a b g1 g2 A B : ℝ) (h1 : |g1| ≤ 1) (h2 : |g2| ≤ 1)
    (ha : |a| ≤ A) (hb : |b| ≤ B) : |a * g1 + b * g2| ≤ A + B := by
  calc |a * g1 + b * g2| ≤ |a * g1| + |b * g2| := abs_add _ _
    _ = |a| * |g1| + |b| * |g2| := by rw [abs_mul, abs_mul]
    _ ≤ |a| * 1 + |b| * 1 := by
        have := mul_le_mul_of_nonneg_left h1 (abs_nonneg a)
        have := mul_le_mul_of_nonneg_left h2 (abs_nonneg b)
        linarith
    _ ≤ A + B := by linarith

theorem randomGradient_fst_abs (ix iy : ℝ) : |(randomGradient realMath ix iy).1| ≤ 1 := by
  simp only [randomGradient, realMath]
  exact Real.abs_cos_le_one _

theorem randomGradient_snd_abs (ix iy : ℝ) : |(randomGradient realMath ix iy).2| ≤ 1 := by
  simp only [randomGradient, realMath]
  exact Real.abs_sin_le_one _

theorem abs_cellValue_le_one (x0 y0 x y : ℝ) (hx0 : x0 ≤ x) (hx1 : x ≤ x0 + 1)
    (hy0 : y0 ≤ y) (hy1 : y ≤ y0 + 1) : |cellValue realMath x0 y0 x y| ≤ 1 := by
  have hu0 : 0 ≤ x - x0 := by linarith
  have hu1 : x - x0 ≤ 1 := by linarith
  have hv0 : 0 ≤ y - y0 := by linarith
  have hv1 : y - y0 ≤ 1 := by linarith
  have au : |x - x0| ≤ x - x0 := le_of_eq (abs_of_nonneg hu0)
  have av : |y - y0| ≤ y - y0 := le_of_eq (abs_of_nonneg hv0)
  have au' : |x - (x0 + 1)| ≤ 1 - (x - x0) := by
    rw [abs_of_nonpos (by linarith)]; linarith
  have av' : |y - (y0 + 1)| ≤ 1 - (y - y0) := by
    rw [abs_of_nonpos (by linarith)]; linarith
  have hsx0 := smootherstep_nonneg _ hu0
  have hsx1 := smootherstep_le_one _ hu0 hu1
  have hsy0 := smootherstep_nonneg _ hv0
  have hsy1 := smootherstep_le_one _ hv0 hv1
  have key := abs_interpolate_le _ _ _ _ _ hsy0 hsy1
    (abs_interpolate_le _ _ _ _ _ hsx0 hsx1
      (abs_dot_le _ _ _ _ _ _ (randomGradient_fst_abs x0 y0) (randomGradient_snd_abs x0 y0) au av)
      (abs_dot_le _ _ _ _ _ _ (randomGradient_fst_abs (x0 + 1) y0)
        (randomGradient_snd_abs (x0 + 1) y0) au' av))
    (abs_interpolate_le _ _ _ _ _ hsx0 hsx1
      (abs_dot_le _ _ _ _ _ _ (randomGradient_fst_abs x0 (y0 + 1))
        (randomGradient_snd_abs x0 (y0 + 1)) au av')
      (abs_dot_le _ _ _ _ _ _ (randomGradient_fst_abs (x0 + 1) (y0 + 1))
        (randomGradient_snd_abs (x0 + 1) (y0 + 1)) au' av'))
  have hb1 := blend_le_half (x - x0)
  have hb2 := blend_le_half (y - y0)
  have e : interpolate
        (interpolate (x - x0 + (y - y0)) (1 - (x - x0) + (y - y0)) (smootherstep (x - x0)))
        (interpolate (x - x0 + (1 - (y - y0))) (1 - (x - x0) + (1 - (y - y0)))
          (smootherstep (x - x0)))
        (smootherstep (y - y0))
      = interpolate (x - x0) (1 - (x - x0)) (smootherstep (x - x0))
        + interpolate (y - y0) (1 - (y - y0)) (smootherstep (y - y0)) := by
    simp only [interpolate]; ring
  rw [e] at key
  simp only [cellValue]
  linarith

theorem abs_noise_le_one (x y : ℝ) : |noise realMath x y| ≤ 1 := by
  rw [noise_eq_cellValue]
  exact abs_cellValue_le_one _ _ x y (Int.floor_le x) (le_of_lt (Int.lt_floor_add_one x))
    (Int.floor_le y) (le_of_lt (Int.lt_floor_add_one y))

/-! ## The octave sum on valid states, and points on a circle (shared lemmas) -/

section
variable {α : Type} [LinearOrderedField α] [FloorRing α]

/-- The value of `fractal` does not depend on the (valid) cache state. -/
theorem fractal_fst_congr (M : MathLib α) (p q : Perlin α) (hp : p.Valid M) (hq : q.Valid M)
    (x y time : α) : (fractal M p x y time).1 = (fractal M q x y time).1 := by
  rw [fractal_fst M p hp, fractal_fst M q hq]

theorem fractal_origin (M : MathLib α) (p : Perlin α) (hp : p.Valid M) :
    (fractal M p 0 0 0).1 = 0 := by
  have h0 : noise M (0 : α) 0 = 0 := by simpa using noise_lattice M 0 0
  rw [fractal_fst M p hp]
  simp [h0]
end

theorem offset_cos_in_box (cx r R θ : ℝ) (h0 : 0 ≤ r) (h1 : r ≤ R) :
    cx - R ≤ cx + r * Real.cos θ ∧ cx + r * Real.cos θ ≤ cx + R := by
  have a := Real.neg_one_le_cos θ
  have b := Real.cos_le_one θ
  constructor <;> nlinarith

theorem offset_sin_in_box (cy r R θ : ℝ) (h0 : 0 ≤ r) (h1 : r ≤ R) :
    cy - R ≤ cy + r * Real.sin θ ∧ cy + r * Real.sin θ ≤ cy + R := by
  have a := Real.neg_one_le_sin θ
  have b := Real.sin_le_one θ
  constructor <;> nlinarith

/-! ## Continuity across cell boundaries (shared lemmas) -/

theorem continuous_cellValue (x0 y0 y : ℝ) :
    Continuous (fun x : ℝ => cellValue realMath x0 y0 x y) := by
  simp only [cellValue, interpolate, smootherstep]
  fun_prop

/-- Between two consecutive integers, both ends included, the noise is the
cell polynomial of the left integer. -/
theorem noise_eq_on_cell (m : ℤ) (x y : ℝ) (h0 : (m : ℝ) ≤ x) (h1 : x ≤ (m : ℝ) + 1) :
    noise realMath x y = cellValue realMath (m : ℝ) ((⌊y⌋ : ℤ) : ℝ) x y := by
  rw [noise_eq_cellValue]
  rcases lt_or_eq_of_le h1 with h | h
  · have hf : ⌊x⌋ = m := Int.floor_eq_iff.mpr ⟨h0, h⟩
    rw [hf]
  · have hf : ⌊x⌋ = m + 1 := by
      rw [h]
      exact_mod_cast Int.floor_intCast (m + 1)
    rw [hf, h]
    push_cast
    exact (cellValue_right_edge realMath (m : ℝ) _ y).symm

theorem continuous_noise_in_x (y : ℝ) : Continuous (fun x : ℝ => noise realMath x y) := by
  rw [continuous_iff_continuousAt]
  intro a
  have hcont : Continuous (fun x : ℝ =>
      if x ≤ ((⌊a⌋ : ℤ) : ℝ) then cellValue realMath (((⌊a⌋ : ℤ) : ℝ) - 1) ((⌊y⌋ : ℤ) : ℝ) x y
      else cellValue realMath ((⌊a⌋ : ℤ) : ℝ) ((⌊y⌋ : ℤ) : ℝ) x y) := by
    apply Continuous.if_le (continuous_cellValue _ _ _) (continuous_cellValue _ _ _)
      continuous_id continuous_const
    intro x hx
    have hx' : x = ((⌊a⌋ : ℤ) : ℝ) := hx
    rw [hx']
    have := cellValue_right_edge realMath (((⌊a⌋ : ℤ) : ℝ) - 1) ((⌊y⌋ : ℤ) : ℝ) y
    simpa using this
  refine hcont.continuousAt.congr ?_
  have hnhds : Set.Ioo (((⌊a⌋ : ℤ) : ℝ) - 1) (((⌊a⌋ : ℤ) : ℝ) + 1) ∈ nhds a :=
    Ioo_mem_nhds (by linarith [Int.floor_le a]) (Int.lt_floor_add_one a)
  filter_upwards [hnhds] with x hx
  by_cases hle : x ≤ ((⌊a⌋ : ℤ) : ℝ)
  · rw [if_pos hle]
    have := noise_eq_on_cell (⌊a⌋ - 1) x y (by push_cast; exact le_of_lt hx.1)
      (by push_cast; linarith)
    rw [this]
    push_cast
    rfl
  · rw [if_neg hle]
    push_neg at hle
    exact (noise_eq_on_cell ⌊a⌋ x y (le_of_lt hle) (le_of_lt hx.2)).symm

/-! ## Sequences of `get` calls (shared lemmas) -/

section
variable {α : Type} [LinearOrderedField α] [FloorRing α]

theorem dotProductGrid_gradients_keep (M : MathLib α) (p : Perlin α) (ix iy x y : α)
    (k : α × α) (g : α × α) (hk : p.gradients k = some g) :
    (dotProductGrid M p ix iy x y).2.gradients k = some g := by
  unfold dotProductGrid
  cases h : p.gradients (ix, iy) with
  | some g0 => simpa using hk
  | none =>
    have hne : k ≠ (ix, iy) := by
      intro e
      rw [e, h] at hk
      exact Option.noConfusion hk
    simp only
    rw [Function.update_noteq hne]
    exact hk

theorem get_gradients_keep (M : MathLib α) (p : Perlin α) (x y : α)
    (k : α × α) (g : α × α) (hk : p.gradients k = some g) :
    (get M p x y).2.gradients k = some g := by
  cases hm : p.memory (x, y) with
  | some v => simpa [get, hm] using hk
  | none =>
    simp only [get, hm]
    exact dotProductGrid_gradients_keep M _ _ _ _ _ k g
      (dotProductGrid_gradients_keep M _ _ _ _ _ k g
        (dotProductGrid_gradients_keep M _ _ _ _ _ k g
          (dotProductGrid_gradients_keep M _ _ _ _ _ k g hk)))

theorem getAll_gradients_keep (M : MathLib α) (calls : List (α × α)) :
    ∀ (p : Perlin α) (k : α × α) (g : α × α), p.gradients k = some g →
      (getAll M p calls).gradients k = some g := by
  induction calls with
  | nil => intro p k g hk; simpa [getAll] using hk
  | cons c rest ih =>
    intro p k g hk
    obtain ⟨x, y⟩ := c
    simp only [getAll]
    exact ih _ k g (get_gradients_keep M p x y k g hk)

theorem getAll_valid (M : MathLib α) (calls : List (α × α)) :
    ∀ p : Perlin α, p.Valid M → (getAll M p calls).Valid M := by
  induction calls with
  | nil => intro p hp; simpa [getAll] using hp
  | cons c rest ih =>
    intro p hp
    obtain ⟨x, y⟩ := c
    simp only [getAll]
    exact ih _ (get_valid M p hp x y)

/-- After a call `get(x, y)` the value cache has an entry for `(x, y)`. -/
theorem get_memory_self (M : MathLib α) (p : Perlin α) (x y : α) :
    (get M p x y).2.memory (x, y) = some (get M p x y).1 := by
  cases hm : p.memory (x, y) with
  | some v => simp [get, hm]
  | none => simp [get, hm]

end

/-! ## The command log of a frame (shared lemmas) -/

section
variable {α : Type} [LinearOrderedField α] [FloorRing α]

theorem filter_isStroke_lineTo (pts : List (α × α)) :
    (pts.map (fun q => Cmd.lineTo q.1 q.2)).filter Cmd.isStroke = [] := by
  induction pts with
  | nil => rfl
  | cons q rest ih => simpa [List.filter, Cmd.isStroke] using ih

theorem filterMap_strokeColor_lineTo (pts : List (α × α)) :
    (pts.map (fun q => Cmd.lineTo q.1 q.2)).filterMap Cmd.strokeColor = [] := by
  induction pts with
  | nil => rfl
  | cons q rest ih => simp [Cmd.strokeColor]

theorem drawThread_strokes (M : MathLib α) (time : α) (p : Perlin α) (frequencyData : α)
    (color : String) (func : CurveFn α) :
    (drawThread M time p frequencyData color func).1.filter Cmd.isStroke = [Cmd.stroke] := by
  simp only [drawThread, List.filter_append, filter_isStroke_lineTo]
  simp [List.filter, Cmd.isStroke]

theorem drawThread_colors (M : MathLib α) (time : α) (p : Perlin α) (frequencyData : α)
    (color : String) (func : CurveFn α) :
    (drawThread M time p frequencyData color func).1.filterMap Cmd.strokeColor = [color] := by
  simp only [drawThread, List.filterMap_append, filterMap_strokeColor_lineTo]
  simp [List.filterMap, Cmd.strokeColor]

/-- The five calls of `drawThread` that one call of `animate` makes. -/
theorem animate_unfold (M : MathLib α) (c : Scene α) (w h : α)
    (dataArray : Fin bufferLength → ℕ) (currentTime : ℕ → α) (p : Perlin α) :
    animate M c w h dataArray currentTime p =
      (let d0 := drawThread M (currentTime 0) p
          ((dataArray ⟨0, by decide⟩ : ℕ) : α) "#ff00ff" (nataraja M c)
       let d1 := drawThread M (currentTime 1) d0.2
          ((dataArray ⟨1, by decide⟩ : ℕ) : α) "#00ffff" (drum M c)
       let d2 := drawThread M (currentTime 2) d1.2
          ((dataArray ⟨2, by decide⟩ : ℕ) : α) "#00ff00" (trident M c)
       let d3 := drawThread M (currentTime 3) d2.2
          ((dataArray ⟨3, by decide⟩ : ℕ) : α) "#ff0000" (thirdEye M c)
       let d4 := drawThread M (currentTime 4) d3.2
          ((dataArray ⟨4, by decide⟩ : ℕ) : α) "#ffff00" (om M c)
       ([Cmd.requestAnimationFrame, Cmd.clearRect 0 0 w h, Cmd.getByteFrequencyData]
          ++ (d0.1 ++ (d1.1 ++ (d2.1 ++ (d3.1 ++ (d4.1 ++ []))))), d4.2)) := by
  rfl

end

/-! ## The click handler (shared lemmas) -/

section
variable {α : Type} [LinearOrderedField α] [FloorRing α]

theorem onClick_isPlaying (pg : Page α) : pg.onClick.1.isPlaying = true := by
  unfold Page.onClick
  cases h : pg.isPlaying <;> simp [h]

theorem onClick_of_playing (pg : Page α) (h : pg.isPlaying = true) : pg.onClick = (pg, []) := by
  simp [Page.onClick, h]

theorem clicks_of_playing (n : ℕ) : ∀ pg : Page α, pg.isPlaying = true →
    Page.clicks n pg = (pg, []) := by
  induction n with
  | zero => intro pg _; rfl
  | succ n ih =>
    intro pg h
    simp only [Page.clicks, onClick_of_playing pg h, ih pg h, List.append_nil]

theorem clicks_succ_load (n : ℕ) (w h : α) :
    Page.clicks (n + 1) (Page.load w h)
      = ({ Page.load w h with isPlaying := true },
          [Action.resume, Action.play, Action.animate, Action.hideStartButton]) := by
  have h1 : (Page.load w h).onClick
      = ({ Page.load w h with isPlaying := true },
          [Action.resume, Action.play, Action.animate, Action.hideStartButton]) := by
    simp [Page.onClick, Page.load]
  simp only [Page.clicks, h1]
  rw [clicks_of_playing n _ rfl]
  rfl

end

/-! ## The angles of the tracing loop (shared lemmas) -/

section
variable {α : Type} [LinearOrderedField α] [FloorRing α]

theorem evalAt_length (func : CurveFn α) (time frequencyData : α) (ts : List α) :
    ∀ p : Perlin α, (evalAt func time frequencyData ts p).1.length = ts.length := by
  induction ts with
  | nil => intro p; rfl
  | cons t rest ih => intro p; simp [evalAt, ih]

/-- If exactly the first `n` multiples of 0.01 added to `t` stay within
`Math.PI * 2`, the loop entered at `t` runs `n` times, at these angles. -/
theorem traceLoop_eq_evalAt (M : MathLib α) (func : CurveFn α) (time frequencyData : α) :
    ∀ (n : ℕ) (t : α) (p : Perlin α),
      (∀ k : ℕ, k < n → t + 0.01 * (k : α) ≤ M.PI * 2) →
      M.PI * 2 < t + 0.01 * (n : α) →
      traceLoop M func time frequencyData t p
        = evalAt func time frequencyData
            ((List.range n).map (fun k : ℕ => t + 0.01 * (k : α))) p := by
  intro n
  induction n with
  | zero =>
    intro t p _ h2
    have hlt : ¬ t ≤ M.PI * 2 := by
      simp only [Nat.cast_zero, mul_zero, add_zero] at h2
      exact not_le.mpr h2
    rw [traceLoop, dif_neg hlt]
    rfl
  | succ n ih =>
    intro t p h1 h2
    have h0 : t ≤ M.PI * 2 := by
      have := h1 0 (Nat.succ_pos n)
      simpa using this
    have ih' := ih (t + 0.01) (func p t time frequencyData).2
      (fun k hk => by
        have := h1 (k + 1) (Nat.succ_lt_succ hk)
        push_cast at this
        linarith)
      (by push_cast at h2; linarith)
    rw [traceLoop, dif_pos h0]
    simp only
    rw [ih', List.range_succ_eq_map, List.map_cons, List.map_map]
    simp only [evalAt, Nat.cast_zero, mul_zero, add_zero]
    have e : (fun k : ℕ => t + 0.01 + 0.01 * (k : α))
        = ((fun k : ℕ => t + 0.01 * (k : α)) ∘ Nat.succ) := by
      funext k
      simp only [Function.comp, Nat.succ_eq_add_one]
      push_cast
      ring
    rw [e]

end

theorem two_pi_bounds : (6.28 : ℝ) < Real.pi * 2 ∧ Real.pi * 2 < (6.29 : ℝ) := by
  have h1 := Real.pi_gt_d6
  have h2 := Real.pi_lt_d6
  constructor <;> norm_num at * <;> linarith

/-! ## Derivatives of `smootherstep` (shared lemmas) -/

theorem hasDerivAt_smootherstep (x : ℝ) :
    HasDerivAt (smootherstep : ℝ → ℝ) (30 * x ^ 4 - 60 * x ^ 3 + 30 * x ^ 2) x := by
  have h := (((hasDerivAt_pow 5 x).const_mul 6).sub ((hasDerivAt_pow 4 x).const_mul 15)).add
    ((hasDerivAt_pow 3 x).const_mul 10)
  have e : (smootherstep : ℝ → ℝ) = fun y => 6 * y ^ 5 - 15 * y ^ 4 + 10 * y ^ 3 := rfl
  rw [e]
  convert h using 1
  norm_num
  ring

theorem deriv_smootherstep :
    deriv (smootherstep : ℝ → ℝ) = fun x => 30 * x ^ 4 - 60 * x ^ 3 + 30 * x ^ 2 :=
  funext fun x => (hasDerivAt_smootherstep x).deriv

theorem hasDerivAt_deriv_smootherstep (x : ℝ) :
    HasDerivAt (deriv (smootherstep : ℝ → ℝ)) (120 * x ^ 3 - 180 * x ^ 2 + 60 * x) x := by
  have h := (((hasDerivAt_pow 4 x).const_mul 30).sub ((hasDerivAt_pow 3 x).const_mul 60)).add
    ((hasDerivAt_pow 2 x).const_mul 30)
  rw [deriv_smootherstep]
  convert h using 1
  norm_num
  ring

/-! ## Bounds and lattice values of the octave sum (shared lemmas) -/

section
variable {α : Type} [LinearOrderedField α] [FloorRing α]

/-- The loop moves the running value by at most the sum of the remaining
amplitudes times a bound on the sampler. -/
theorem fractalLoop_bound {σ : Type} (noise : σ → α → α → α × σ) (B : α)
    (hB : ∀ s u v, |(noise s u v).1| ≤ B) (x y time : α) :
    ∀ (n : ℕ) (s : σ) (value frequency amplitude : α), 0 ≤ amplitude →
      |(fractalLoop noise x y time n s value frequency amplitude).1 - value|
        ≤ (∑ i in Finset.range n, amplitude * (1 / 2) ^ i) * B := by
  intro n
  induction n with
  | zero =>
    intro s value frequency amplitude _
    simp [fractalLoop]
  | succ n ih =>
    intro s value frequency amplitude ha
    have h5 : (0.5 : α) = 1 / 2 := by norm_num
    have ha2 : 0 ≤ amplitude * 0.5 := by rw [h5]; positivity
    have h1 := ih (noise s (x * frequency + time) (y * frequency + time)).2
      (value + amplitude * (noise s (x * frequency + time) (y * frequency + time)).1)
      (frequency * 2) (amplitude * 0.5) ha2
    have h2 := hB s (x * frequency + time) (y * frequency + time)
    have h3 : |amplitude * (noise s (x * frequency + time) (y * frequency + time)).1|
        ≤ amplitude * B := by
      rw [abs_mul, abs_of_nonneg ha]
      exact mul_le_mul_of_nonneg_left h2 ha
    simp only [fractalLoop]
    rw [Finset.sum_range_succ']
    have e : ∑ i in Finset.range n, amplitude * (1 / 2) ^ (i + 1)
        = ∑ i in Finset.range n, amplitude * 0.5 * (1 / 2) ^ i := by
      apply Finset.sum_congr rfl
      intro i _
      rw [h5, pow_succ]
      ring
    rw [e]
    simp only [pow_zero, mul_one]
    generalize (fractalLoop noise x y time n
        (noise s (x * frequency + time) (y * frequency + time)).2
        (value + amplitude * (noise s (x * frequency + time) (y * frequency + time)).1)
        (frequency * 2) (amplitude * 0.5)).1 = R at h1 ⊢
    generalize (noise s (x * frequency + time) (y * frequency + time)).1 = r at h1 h3 ⊢
    have e2 : R - value = (R - (value + amplitude * r)) + amplitude * r := by ring
    rw [e2]
    calc |R - (value + amplitude * r) + amplitude * r|
        ≤ |R - (value + amplitude * r)| + |amplitude * r| := abs_add _ _
      _ ≤ (∑ i in Finset.range n, amplitude * 0.5 * (1 / 2) ^ i) * B + amplitude * B :=
          add_le_add h1 h3
      _ = (∑ i in Finset.range n, amplitude * 0.5 * (1 / 2) ^ i + amplitude) * B := by ring

theorem amplitude_sum : ∑ i in Finset.range 5, (1 : α) * (1 / 2) ^ i = 1.9375 := by
  simp only [Finset.sum_range_succ, Finset.sum_range_zero]
  norm_num

theorem fractalWith_five_bound {σ : Type} (noise : σ → α → α → α × σ) (B : α)
    (hB : ∀ s u v, |(noise s u v).1| ≤ B) (s : σ) (x y time : α) :
    |(fractalWith noise 5 s x y time).1| ≤ 1.9375 * B := by
  have h := fractalLoop_bound noise B hB x y time 5 s 0 1 1 zero_le_one
  rw [amplitude_sum, sub_zero] at h
  exact h

/-- On valid states `fractal` is bounded by the sum of the amplitudes times a
bound on the cache-free noise. -/
theorem abs_fractal_le (M : MathLib α) (B : α) (hB : ∀ u v, |noise M u v| ≤ B)
    (p : Perlin α) (hv : p.Valid M) (x y time : α) :
    |(fractal M p x y time).1| ≤ 1.9375 * B := by
  have h := fractalWith_five_bound (fun (s : Unit) u v => (noise M u v, s)) B
    (fun _ u v => hB u v) () x y time
  have e := (fractalLoop_spec (fun (s : Unit) u v => (noise M u v, s)) (fun _ => True)
    (noise M) (fun _ _ _ _ => ⟨rfl, trivial⟩) x y time 5 () 0 1 1 trivial).1
  have e2 := fractal_fst M p hv x y time
  simp only [zero_add, one_mul] at e
  have e3 : (fractalWith (fun (s : Unit) u v => (noise M u v, s)) 5 () x y time).1
      = (fractal M p x y time).1 := by
    rw [e2]
    simpa [fractalWith] using e
  rw [e3] at h
  exact h

theorem dotProductGrid_at_corner (M : MathLib α) (p : Perlin α) (x y : α) :
    (dotProductGrid M p x y x y).1 = 0 := by
  unfold dotProductGrid
  cases h : p.gradients (x, y) <;> simp

/-- On a lattice point `get` returns 0 even if the gradient cache holds
arbitrary vectors. -/
theorem get_lattice (M : MathLib α) (p : Perlin α) (hm : p.MemValid M) (m n : ℤ) :
    (get M p (m : α) (n : α)).1 = 0 := by
  cases h : p.memory ((m : α), (n : α)) with
  | some v =>
    have := hm _ _ h
    simp only at this
    rw [noise_lattice] at this
    simp [get, h, this]
  | none =>
    simp only [get, h, Int.floor_intCast, sub_self, smootherstep_zero, interpolate_zero]
    exact dotProductGrid_at_corner M p _ _

theorem fractal_lattice (M : MathLib α) (p : Perlin α) (hv : p.Valid M) (m n k : ℤ) :
    (fractal M p (m : α) (n : α) (k : α)).1 = 0 := by
  rw [fractal_fst M p hv]
  apply Finset.sum_eq_zero
  intro i _
  have e1 : (m : α) * 2 ^ i + (k : α) = ((m * 2 ^ i + k : ℤ) : α) := by push_cast; ring
  have e2 : (n : α) * 2 ^ i + (k : α) = ((n * 2 ^ i + k : ℤ) : α) := by push_cast; ring
  rw [e1, e2, noise_lattice, mul_zero]

end

theorem abs_offset_cos_le (c r R θ : ℝ) (h : |r| ≤ R) : |c + r * Real.cos θ - c| ≤ R := by
  rw [add_sub_cancel_left, abs_mul]
  have h1 := Real.abs_cos_le_one θ
  have := mul_le_mul h h1 (abs_nonneg _) (le_trans (abs_nonneg _) h)
  linarith

theorem abs_offset_sin_le (c r R θ : ℝ) (h : |r| ≤ R) : |c + r * Real.sin θ - c| ≤ R := by
  rw [add_sub_cancel_left, abs_mul]
  have h1 := Real.abs_sin_le_one θ
  have := mul_le_mul h h1 (abs_nonneg _) (le_trans (abs_nonneg _) h)
  linarith

/-- A radius `maxRadius * k * (1 + w)` with `0 <= k`, `|w| <= b` and
`k * (1 + b) <= 1` has absolute value at most `maxRadius`. -/
theorem abs_radius_le (R k w b : ℝ) (hR : 0 ≤ R) (hk : 0 ≤ k) (hw : |w| ≤ b)
    (hkb : k * (1 + b) ≤ 1) : |R * k * (1 + w)| ≤ R := by
  have hw' := abs_le.mp hw
  have h1 : |1 + w| ≤ 1 + b := by
    rw [abs_le]; constructor <;> linarith
  rw [abs_mul, abs_mul, abs_of_nonneg hR, abs_of_nonneg hk]
  have h2 : k * |1 + w| ≤ k * (1 + b) := mul_le_mul_of_nonneg_left h1 hk
  have h3 : R * (k * |1 + w|) ≤ R * 1 := mul_le_mul_of_nonneg_left (le_trans h2 hkb) hR
  linarith

/-! ## The gradient at the origin and where the shared pattern fails (shared lemmas)

The hash value at the lattice origin is `2920 * sin 8912 * cos 9758`. Both angles are
reduced by multiples of pi, halved until the Taylor bounds of order three and two are
sharp, and doubled back with interval bounds. -/

/-- Bounds for sine and cosine of a small angle known up to an interval, from
the Taylor bounds of order three and two. -/
theorem sin_cos_start (y yl yh : ℝ) (h0 : 0 ≤ yl) (h1 : yl ≤ y) (h2 : y ≤ yh) (h3 : yh ≤ 1) :
    yl - yh ^ 3 / 6 - yh ^ 4 * (5 / 96) ≤ Real.sin y
      ∧ Real.sin y ≤ yh - yl ^ 3 / 6 + yh ^ 4 * (5 / 96)
      ∧ 1 - yh ^ 2 / 2 - yh ^ 4 * (5 / 96) ≤ Real.cos y
      ∧ Real.cos y ≤ 1 - yl ^ 2 / 2 + yh ^ 4 * (5 / 96) := by
  have hy0 : 0 ≤ y := le_trans h0 h1
  have habs : |y| ≤ 1 := by rw [abs_of_nonneg hy0]; linarith
  have sb := abs_le.mp (Real.sin_bound habs)
  have cb := abs_le.mp (Real.cos_bound habs)
  rw [abs_of_nonneg hy0] at sb cb
  have p2l : yl ^ 2 ≤ y ^ 2 := pow_le_pow_left₀ h0 h1 2
  have p2h : y ^ 2 ≤ yh ^ 2 := pow_le_pow_left₀ hy0 h2 2
  have p3l : yl ^ 3 ≤ y ^ 3 := pow_le_pow_left₀ h0 h1 3
  have p3h : y ^ 3 ≤ yh ^ 3 := pow_le_pow_left₀ hy0 h2 3
  have p4h : y ^ 4 ≤ yh ^ 4 := pow_le_pow_left₀ hy0 h2 4
  refine ⟨?_, ?_, ?_, ?_⟩ <;> linarith [sb.1, sb.2, cb.1, cb.2]

/-- Interval bounds for the double angle from bounds for the angle. -/
theorem sin_cos_double (x sl sh cl ch : ℝ) (hsl : 0 ≤ sl) (hcl : 0 ≤ cl)
    (h : sl ≤ Real.sin x ∧ Real.sin x ≤ sh ∧ cl ≤ Real.cos x ∧ Real.cos x ≤ ch) :
    2 * sl * cl ≤ Real.sin (2 * x) ∧ Real.sin (2 * x) ≤ 2 * sh * ch
      ∧ 1 - 2 * sh ^ 2 ≤ Real.cos (2 * x) ∧ Real.cos (2 * x) ≤ 1 - 2 * sl ^ 2 := by
  obtain ⟨h1, h2, h3, h4⟩ := h
  have hs0 : 0 ≤ Real.sin x := le_trans hsl h1
  have hc0 : 0 ≤ Real.cos x := le_trans hcl h3
  have e := Real.sin_sq_add_cos_sq x
  have m1 : sl * cl ≤ Real.sin x * Real.cos x := mul_le_mul h1 h3 hcl hs0
  have m2 : Real.sin x * Real.cos x ≤ sh * ch := mul_le_mul h2 h4 hc0 (le_trans hs0 h2)
  have q1 : sl ^ 2 ≤ Real.sin x ^ 2 := pow_le_pow_left₀ hsl h1 2
  have q2 : Real.sin x ^ 2 ≤ sh ^ 2 := pow_le_pow_left₀ hs0 h2 2
  rw [Real.sin_two_mul, Real.cos_two_mul]
  refine ⟨?_, ?_, ?_, ?_⟩ <;> nlinarith

theorem trig_8912_reduced_bounds :
    0.642957635536 ≤ Real.sin (2837 * Real.pi - 8912) ∧ Real.sin (2837 * Real.pi - 8912) ≤ 0.642964424161
      ∧ 0.765896695035 ≤ Real.cos (2837 * Real.pi - 8912) ∧ Real.cos (2837 * Real.pi - 8912) ≤ 0.765901090688 := by
  have hpl := Real.pi_gt_d20
  have hph := Real.pi_lt_d20
  have hy0 : (0.043647389640213 : ℝ) ≤ (2837 * Real.pi - 8912) / 16 := by
    rw [le_div_iff₀ (by norm_num)]; norm_num; linarith
  have hy1 : (2837 * Real.pi - 8912) / 16 ≤ (0.043647389640214 : ℝ) := by
    rw [div_le_iff₀ (by norm_num)]; norm_num; linarith
  have b0 := sin_cos_start ((2837 * Real.pi - 8912) / 16) 0.043647389640213 0.043647389640214 (by norm_num) hy0 hy1
    (by norm_num)
  have c0 : 0.043633341875 ≤ Real.sin ((2837 * Real.pi - 8912) / 16)
      ∧ Real.sin ((2837 * Real.pi - 8912) / 16) ≤ 0.043633719937
      ∧ 0.999047263658 ≤ Real.cos ((2837 * Real.pi - 8912) / 16)
      ∧ Real.cos ((2837 * Real.pi - 8912) / 16) ≤ 0.99904764172 :=
    ⟨le_trans (by norm_num) b0.1, le_trans b0.2.1 (by norm_num),
      le_trans (by norm_num) b0.2.2.1, le_trans b0.2.2.2 (by norm_num)⟩
  have b1 := sin_cos_double ((2837 * Real.pi - 8912) / 16) 0.043633341875 0.043633719937 0.999047263658 0.99904764172
    (by norm_num) (by norm_num) c0
  have c1 : 0.087183541608 ≤ Real.sin (2 * ((2837 * Real.pi - 8912) / 16))
      ∧ Real.sin (2 * ((2837 * Real.pi - 8912) / 16)) ≤ 0.087184330006
      ∧ 0.996192196968 ≤ Real.cos (2 * ((2837 * Real.pi - 8912) / 16))
      ∧ Real.cos (2 * ((2837 * Real.pi - 8912) / 16)) ≤ 0.996192262954 :=
    ⟨le_trans (by norm_num) b1.1, le_trans b1.2.1 (by norm_num),
      le_trans (by norm_num) b1.2.2.1, le_trans b1.2.2.2 (by norm_num)⟩
  have b2 := sin_cos_double (2 * ((2837 * Real.pi - 8912) / 16)) 0.087183541608 0.087184330006 0.996192196968 0.996192262954
    (by norm_num) (by norm_num) c1
  have c2 : 0.173703127707 ≤ Real.sin (2 * (2 * ((2837 * Real.pi - 8912) / 16)))
      ∧ Real.sin (2 * (2 * ((2837 * Real.pi - 8912) / 16))) ≤ 0.173704710006
      ∧ 0.984797785202 ≤ Real.cos (2 * (2 * ((2837 * Real.pi - 8912) / 16)))
      ∧ Real.cos (2 * (2 * ((2837 * Real.pi - 8912) / 16))) ≤ 0.984798060146 :=
    ⟨le_trans (by norm_num) b2.1, le_trans b2.2.1 (by norm_num),
      le_trans (by norm_num) b2.2.2.1, le_trans b2.2.2.2 (by norm_num)⟩
  have b3 := sin_cos_double (2 * (2 * ((2837 * Real.pi - 8912) / 16))) 0.173703127707 0.173704710006 0.984797785202 0.984798060146
    (by norm_num) (by norm_num) c2
  have c3 : 0.342124910897 ≤ Real.sin (2 * (2 * (2 * ((2837 * Real.pi - 8912) / 16))))
      ∧ Real.sin (2 * (2 * (2 * ((2837 * Real.pi - 8912) / 16)))) ≤ 0.342128122905
      ∧ 0.939653347443 ≤ Real.cos (2 * (2 * (2 * ((2837 * Real.pi - 8912) / 16))))
      ∧ Real.cos (2 * (2 * (2 * ((2837 * Real.pi - 8912) / 16)))) ≤ 0.93965444685 :=
    ⟨le_trans (by norm_num) b3.1, le_trans b3.2.1 (by norm_num),
      le_trans (by norm_num) b3.2.2.1, le_trans b3.2.2.2 (by norm_num)⟩
  have b4 := sin_cos_double (2 * (2 * (2 * ((2837 * Real.pi - 8912) / 16)))) 0.342124910897 0.342128122905 0.939653347443 0.93965444685
    (by norm_num) (by norm_num) c3
  have c4 : 0.642957635536 ≤ Real.sin (2 * (2 * (2 * (2 * ((2837 * Real.pi - 8912) / 16)))))
      ∧ Real.sin (2 * (2 * (2 * (2 * ((2837 * Real.pi - 8912) / 16))))) ≤ 0.642964424161
      ∧ 0.765896695035 ≤ Real.cos (2 * (2 * (2 * (2 * ((2837 * Real.pi - 8912) / 16)))))
      ∧ Real.cos (2 * (2 * (2 * (2 * ((2837 * Real.pi - 8912) / 16))))) ≤ 0.765901090688 :=
    ⟨le_trans (by norm_num) b4.1, le_trans b4.2.1 (by norm_num),
      le_trans (by norm_num) b4.2.2.1, le_trans b4.2.2.2 (by norm_num)⟩
  have ea : (2 * (2 * (2 * (2 * ((2837 * Real.pi - 8912) / 16))))) = 2837 * Real.pi - 8912 := by ring
  rw [ea] at c4
  exact c4

theorem trig_9758_bounds :
    0.211604206213 ≤ Real.sin 9758 ∧ Real.sin 9758 ≤ 0.211607762627
      ∧ 0.977354680271 ≤ Real.cos 9758 ∧ Real.cos 9758 ≤ 0.977355433285 := by
  have hpl := Real.pi_gt_d20
  have hph := Real.pi_lt_d20
  have es : Real.sin 9758 = Real.sin (9758 - 3106 * Real.pi) := by
    have h1 := Real.sin_sub_nat_mul_two_pi 9758 1553
    rw [← h1]
    congr 1
    push_cast
    ring
  have ec : Real.cos 9758 = Real.cos (9758 - 3106 * Real.pi) := by
    have h1 := Real.cos_sub_nat_mul_two_pi 9758 1553
    rw [← h1]
    congr 1
    push_cast
    ring
  have hy0 : (0.05330448752555 : ℝ) ≤ (9758 - 3106 * Real.pi) / 4 := by
    rw [le_div_iff₀ (by norm_num)]; norm_num; linarith
  have hy1 : (9758 - 3106 * Real.pi) / 4 ≤ (0.053304487525551 : ℝ) := by
    rw [div_le_iff₀ (by norm_num)]; norm_num; linarith
  have b0 := sin_cos_start ((9758 - 3106 * Real.pi) / 4) 0.05330448752555 0.053304487525551 (by norm_num) hy0 hy1
    (by norm_num)
  have c0 : 0.053278824089 ≤ Real.sin ((9758 - 3106 * Real.pi) / 4)
      ∧ Real.sin ((9758 - 3106 * Real.pi) / 4) ≤ 0.053279665067
      ∧ 0.998578895316 ≤ Real.cos ((9758 - 3106 * Real.pi) / 4)
      ∧ Real.cos ((9758 - 3106 * Real.pi) / 4) ≤ 0.998579736294 :=
    ⟨le_trans (by norm_num) b0.1, le_trans b0.2.1 (by norm_num),
      le_trans (by norm_num) b0.2.2.1, le_trans b0.2.2.2 (by norm_num)⟩
  have b1 := sin_cos_double ((9758 - 3106 * Real.pi) / 4) 0.053278824089 0.053279665067 0.998578895316 0.998579736294
    (by norm_num) (by norm_num) c0
  have c1 : 0.106406218605 ≤ Real.sin (2 * ((9758 - 3106 * Real.pi) / 4))
      ∧ Real.sin (2 * ((9758 - 3106 * Real.pi) / 4)) ≤ 0.106407987785
      ∧ 0.99432255458 ≤ Real.cos (2 * ((9758 - 3106 * Real.pi) / 4))
      ∧ Real.cos (2 * ((9758 - 3106 * Real.pi) / 4)) ≤ 0.994322733808 :=
    ⟨le_trans (by norm_num) b1.1, le_trans b1.2.1 (by norm_num),
      le_trans (by norm_num) b1.2.2.1, le_trans b1.2.2.2 (by norm_num)⟩
  have b2 := sin_cos_double (2 * ((9758 - 3106 * Real.pi) / 4)) 0.106406218605 0.106407987785 0.99432255458 0.994322733808
    (by norm_num) (by norm_num) c1
  have c2 : 0.211604206213 ≤ Real.sin (2 * (2 * ((9758 - 3106 * Real.pi) / 4)))
      ∧ Real.sin (2 * (2 * ((9758 - 3106 * Real.pi) / 4))) ≤ 0.211607762627
      ∧ 0.977354680271 ≤ Real.cos (2 * (2 * ((9758 - 3106 * Real.pi) / 4)))
      ∧ Real.cos (2 * (2 * ((9758 - 3106 * Real.pi) / 4))) ≤ 0.977355433285 :=
    ⟨le_trans (by norm_num) b2.1, le_trans b2.2.1 (by norm_num),
      le_trans (by norm_num) b2.2.2.1, le_trans b2.2.2.2 (by norm_num)⟩
  have ea : (2 * (2 * ((9758 - 3106 * Real.pi) / 4))) = 9758 - 3106 * Real.pi := by ring
  rw [ea] at c2
  rw [es, ec]
  exact c2

theorem sin_8912_bounds :
    0.642957635536 ≤ Real.sin 8912 ∧ Real.sin 8912 ≤ 0.642964424161 := by
  have es : Real.sin 8912 = Real.sin (2837 * Real.pi - 8912) := by
    have h1 := Real.sin_sub_nat_mul_two_pi 8912 1418
    have h2 := Real.sin_pi_sub (8912 - (1418 : ℕ) * (2 * Real.pi))
    rw [← h1, ← h2]
    congr 1
    push_cast
    ring
  rw [es]
  exact ⟨trig_8912_reduced_bounds.1, trig_8912_reduced_bounds.2.1⟩


/-- The gradient at the origin points into the first quadrant. -/
theorem gradient_origin_bounds :
    0 ≤ (randomGradient realMath 0 0).1 ∧ 0.14 ≤ (randomGradient realMath 0 0).2 := by
  have hpl := Real.pi_gt_d20
  have hph := Real.pi_lt_d20
  have hs := sin_8912_bounds
  have hc := trig_9758_bounds
  have hP1 : 0.642957635536 * 0.977354680271 ≤ Real.sin 8912 * Real.cos 9758 :=
    mul_le_mul hs.1 hc.2.2.1 (by norm_num) (le_trans (by norm_num) hs.1)
  have hP2 : Real.sin 8912 * Real.cos 9758 ≤ 0.642964424161 * 0.977355433285 :=
    mul_le_mul hs.2 hc.2.2.2 (le_trans (by norm_num) hc.2.2.1) (by norm_num)
  have er : (randomGradient realMath 0 0)
      = (Real.cos (2920 * Real.sin 8912 * Real.cos 9758),
          Real.sin (2920 * Real.sin 8912 * Real.cos 9758)) := by
    simp [randomGradient, realMath]
  have e1 := Real.cos_sub_nat_mul_two_pi (2920 * Real.sin 8912 * Real.cos 9758) 292
  have e2 := Real.sin_sub_nat_mul_two_pi (2920 * Real.sin 8912 * Real.cos 9758) 292
  have t1 : 0.23 ≤ 2920 * Real.sin 8912 * Real.cos 9758 - (292 : ℕ) * (2 * Real.pi) := by
    push_cast
    norm_num at hP1 ⊢
    nlinarith
  have t2 : 2920 * Real.sin 8912 * Real.cos 9758 - (292 : ℕ) * (2 * Real.pi) ≤ 0.26 := by
    push_cast
    norm_num at hP2 ⊢
    nlinarith
  rw [er]
  constructor
  · show 0 ≤ Real.cos (2920 * Real.sin 8912 * Real.cos 9758)
    rw [← e1]
    exact Real.cos_nonneg_of_neg_pi_div_two_le_of_le (by linarith) (by linarith)
  · show 0.14 ≤ Real.sin (2920 * Real.sin 8912 * Real.cos 9758)
    rw [← e2]
    have hm := Real.mul_le_sin (le_trans (by norm_num) t1) (by linarith : _ ≤ Real.pi / 2)
    have hpi : 0.63 ≤ 2 / Real.pi := by
      rw [le_div_iff₀ Real.pi_pos]
      linarith
    have : 0.63 * 0.23 ≤ 2 / Real.pi
        * (2920 * Real.sin 8912 * Real.cos 9758 - (292 : ℕ) * (2 * Real.pi)) :=
      mul_le_mul hpi t1 (by norm_num) (le_trans (by norm_num) hpi)
    linarith


theorem smootherstep_le_cube (u : ℝ) (_h0 : 0 ≤ u) (h1 : u ≤ 1) : smootherstep u ≤ 10 * u ^ 3 := by
  have e : 10 * u ^ 3 - smootherstep u = u ^ 4 * (15 - 6 * u) := by
    simp only [smootherstep]; ring
  have : 0 ≤ u ^ 4 * (15 - 6 * u) := mul_nonneg (by positivity) (by linarith)
  linarith

/-- The blend of four corner values stays within `4 * (sx + sy)` below the first
one when all four are at most 2 in absolute value. -/
theorem blend_lower (n0 n1 n2 n3 sx sy : ℝ) (hsx0 : 0 ≤ sx) (hsx1 : sx ≤ 1) (hsy0 : 0 ≤ sy)
    (hsy1 : sy ≤ 1) (h0 : |n0| ≤ 2) (h1 : |n1| ≤ 2) (h2 : |n2| ≤ 2) (h3 : |n3| ≤ 2) :
    n0 - 4 * (sx + sy) ≤ interpolate (interpolate n0 n1 sx) (interpolate n2 n3 sx) sy := by
  have a0 := abs_le.mp h0
  have a1 := abs_le.mp h1
  have a2 := abs_le.mp h2
  have a3 := abs_le.mp h3
  have p1 : 0 ≤ sx * (1 - sy) * (n1 - n0 + 4) :=
    mul_nonneg (mul_nonneg hsx0 (by linarith)) (by linarith)
  have p2 : 0 ≤ sy * (1 - sx) * (n2 - n0 + 4) :=
    mul_nonneg (mul_nonneg hsy0 (by linarith)) (by linarith)
  have p3 : 0 ≤ sx * sy * (n3 - n0 + 4) :=
    mul_nonneg (mul_nonneg hsx0 hsy0) (by linarith)
  have p4 : 0 ≤ sx * sy := mul_nonneg hsx0 hsy0
  simp only [interpolate]
  nlinarith

/-- Near the origin of the cell `[0, 1) x [0, 1)` the noise is at least the
part of the first corner term that comes from `y`, up to a cubic error. -/
theorem noise_lower_near_origin (x y : ℝ) (hx0 : 0 ≤ x) (hx1 : x < 1) (hy0 : 0 ≤ y)
    (hy1 : y < 1) : 0.14 * y - 40 * (x ^ 3 + y ^ 3) ≤ noise realMath x y := by
  have hg := gradient_origin_bounds
  have fx : ⌊x⌋ = 0 := Int.floor_eq_zero_iff.mpr ⟨hx0, hx1⟩
  have fy : ⌊y⌋ = 0 := Int.floor_eq_zero_iff.mpr ⟨hy0, hy1⟩
  have ax : |x| ≤ 1 := by rw [abs_of_nonneg hx0]; exact hx1.le
  have ay : |y| ≤ 1 := by rw [abs_of_nonneg hy0]; exact hy1.le
  have ax1 : |x - 1| ≤ 1 := by rw [abs_le]; constructor <;> linarith
  have ay1 : |y - 1| ≤ 1 := by rw [abs_le]; constructor <;> linarith
  have hsx0 := smootherstep_nonneg x hx0
  have hsx1 := smootherstep_le_one x hx0 hx1.le
  have hsy0 := smootherstep_nonneg y hy0
  have hsy1 := smootherstep_le_one y hy0 hy1.le
  have cx := smootherstep_le_cube x hx0 hx1.le
  have cy := smootherstep_le_cube y hy0 hy1.le
  have two : (1 : ℝ) + 1 = 2 := by norm_num
  have key := blend_lower
    (x * (randomGradient realMath 0 0).1 + y * (randomGradient realMath 0 0).2)
    ((x - 1) * (randomGradient realMath (0 + 1) 0).1 + y * (randomGradient realMath (0 + 1) 0).2)
    (x * (randomGradient realMath 0 (0 + 1)).1
      + (y - 1) * (randomGradient realMath 0 (0 + 1)).2)
    ((x - 1) * (randomGradient realMath (0 + 1) (0 + 1)).1
      + (y - 1) * (randomGradient realMath (0 + 1) (0 + 1)).2)
    (smootherstep x) (smootherstep y) hsx0 hsx1 hsy0 hsy1
    (two ▸ abs_dot_le _ _ _ _ 1 1 (randomGradient_fst_abs _ _) (randomGradient_snd_abs _ _) ax ay)
    (two ▸ abs_dot_le _ _ _ _ 1 1 (randomGradient_fst_abs _ _) (randomGradient_snd_abs _ _) ax1 ay)
    (two ▸ abs_dot_le _ _ _ _ 1 1 (randomGradient_fst_abs _ _) (randomGradient_snd_abs _ _) ax ay1)
    (two ▸ abs_dot_le _ _ _ _ 1 1 (randomGradient_fst_abs _ _) (randomGradient_snd_abs _ _) ax1 ay1)
  have e : noise realMath x y = interpolate
      (interpolate
        (x * (randomGradient realMath 0 0).1 + y * (randomGradient realMath 0 0).2)
        ((x - 1) * (randomGradient realMath (0 + 1) 0).1
          + y * (randomGradient realMath (0 + 1) 0).2) (smootherstep x))
      (interpolate
        (x * (randomGradient realMath 0 (0 + 1)).1
          + (y - 1) * (randomGradient realMath 0 (0 + 1)).2)
        ((x - 1) * (randomGradient realMath (0 + 1) (0 + 1)).1
          + (y - 1) * (randomGradient realMath (0 + 1) (0 + 1)).2) (smootherstep x))
      (smootherstep y) := by
    rw [noise_eq_cellValue, fx, fy]
    simp only [cellValue, Int.cast_zero, sub_zero, zero_add]
  rw [e]
  have m1 : 0 ≤ x * (randomGradient realMath 0 0).1 := mul_nonneg hx0 hg.1
  have m2 : 0.14 * y ≤ y * (randomGradient realMath 0 0).2 := by
    have := mul_le_mul_of_nonneg_left hg.2 hy0
    linarith
  refine le_trans ?_ key
  linarith

/-- At angle 0 and time 1/256 the octave sum that `trident` uses for its radius
is positive. -/
theorem fractal_trident_time_pos (p : Perlin ℝ) (hv : p.Valid realMath) :
    0 < (fractal realMath p 0 (1 / 256) (1 / 256)).1 := by
  rw [fractal_fst realMath p hv]
  simp only [Finset.sum_range_succ, Finset.sum_range_zero]
  norm_num
  have h0 := noise_lower_near_origin (1 / 256) (1 / 128) (by norm_num) (by norm_num)
    (by norm_num) (by norm_num)
  have h1 := noise_lower_near_origin (1 / 256) (3 / 256) (by norm_num) (by norm_num)
    (by norm_num) (by norm_num)
  have h2 := noise_lower_near_origin (1 / 256) (5 / 256) (by norm_num) (by norm_num)
    (by norm_num) (by norm_num)
  have h3 := noise_lower_near_origin (1 / 256) (9 / 256) (by norm_num) (by norm_num)
    (by norm_num) (by norm_num)
  have h4 := noise_lower_near_origin (1 / 256) (17 / 256) (by norm_num) (by norm_num)
    (by norm_num) (by norm_num)
  norm_num at h0 h1 h2 h3 h4
  linarith


/-- For `maxRadius ≠ 0`, `thirdEye` at angle 0 and time 0 is not its center plus
its radius times `(cos phi, sin phi)` for any `phi`. -/
theorem thirdEye_no_single_phase (c : Scene ℝ) (hR : c.maxRadius ≠ 0) (p : Perlin ℝ)
    (frequencyData : ℝ) :
    ¬ ∃ φ : ℝ,
      (thirdEye realMath c p 0 0 frequencyData).1
        = (c.centerX + thirdEyeRadius realMath c 0 * Real.cos (0 + φ),
           c.centerY + thirdEyeRadius realMath c 0 * Real.sin (0 + φ)) := by
  rintro ⟨φ, h⟩
  have hx := congrArg Prod.fst h
  have hy := congrArg Prod.snd h
  simp only [thirdEye, thirdEyeRadius, realMath, Real.sin_zero, Real.cos_zero, mul_zero,
    add_zero, zero_add, mul_one, add_right_inj] at hx hy
  have hr : c.maxRadius * 0.2 ≠ 0 := mul_ne_zero hR (by norm_num)
  have hc : Real.cos φ = 1 := by
    have := mul_left_cancel₀ hr (hx.symm.trans (mul_one _).symm)
    exact this
  have hs : Real.sin φ = Real.sin 1 := (mul_left_cancel₀ hr hy).symm
  have hp : 0 < Real.sin 1 :=
    Real.sin_pos_of_pos_of_lt_pi one_pos (by linarith [Real.pi_gt_three])
  have hsq := Real.sin_sq_add_cos_sq φ
  rw [hc, hs] at hsq
  nlinarith

/-- For `maxRadius ≠ 0`, `nataraja` at angle 0, time 0, sample 0 returns the
center itself, which is not at its radius from the center in any direction. -/
theorem nataraja_no_phase (c : Scene ℝ) (hR : c.maxRadius ≠ 0) (p : Perlin ℝ) :
    ¬ ∃ φ : ℝ,
      (nataraja realMath c p 0 0 0).1
        = (c.centerX + natarajaRadius realMath c 0 * Real.cos (0 + φ),
           c.centerY + natarajaRadius realMath c 0 * Real.sin (0 + φ)) := by
  rintro ⟨φ, h⟩
  have hx := congrArg Prod.fst h
  have hy := congrArg Prod.snd h
  simp only [nataraja, natarajaRadius, realMath, Real.sin_zero, Real.cos_zero, mul_zero,
    add_zero, zero_add, mul_one, zero_div, zero_mul] at hx hy
  have hr : c.maxRadius * 0.35 * (1 + 1) ≠ 0 :=
    mul_ne_zero (mul_ne_zero hR (by norm_num)) (by norm_num)
  have hc : Real.cos φ = 0 := by
    have : c.maxRadius * 0.35 * (1 + 1) * Real.cos φ = 0 := by linarith
    exact (mul_eq_zero.mp this).resolve_left hr
  have hs : Real.sin φ = 0 := by
    have : c.maxRadius * 0.35 * (1 + 1) * Real.sin φ = 0 := by linarith
    exact (mul_eq_zero.mp this).resolve_left hr
  have hsq := Real.sin_sq_add_cos_sq φ
  rw [hc, hs] at hsq
  norm_num at hsq

/-- For `maxRadius ≠ 0` the radius of `trident` changes with the time at angle 0,
so it is not `maxRadius * k * (1 + trig (n * angle))` for any `k`, `n` and any
function `trig`. -/
theorem trident_radius_not_pattern (c : Scene ℝ) (hR : c.maxRadius ≠ 0) (p : Perlin ℝ)
    (hv : p.Valid realMath) :
    ¬ ∃ (k n : ℝ) (trig : ℝ → ℝ), ∀ angle time : ℝ,
      (tridentRadius realMath c p angle time).1 = c.maxRadius * k * (1 + trig (n * angle)) := by
  rintro ⟨k, n, trig, h⟩
  have h0 := h 0 0
  have h1 := h 0 (1 / 256)
  have hpos := fractal_trident_time_pos p hv
  have hz := fractal_origin realMath p hv
  simp only [tridentRadius] at h0 h1
  rw [hz] at h0
  have e : c.maxRadius * 0.3 * (1 + (fractal realMath p 0 (1 / 256) (1 / 256)).1)
      = c.maxRadius * 0.3 * (1 + 0) := by rw [h1, h0]
  have hr : c.maxRadius * 0.3 ≠ 0 := mul_ne_zero hR (by norm_num)
  have := mul_left_cancel₀ hr e
  linarith

/-! ## Claims -/

/-- C1: the pair `(x, y)` returned by `randomGradient(ix, iy)` satisfies
`x*x + y*y = 1`, for every `ix`, `iy` (so in particular for the integer lattice
coordinates that `get` passes in). -/
theorem C1_randomGradient_unit (ix iy : ℝ) :
    (randomGradient realMath ix iy).1 * (randomGradient realMath ix iy).1
      + (randomGradient realMath ix iy).2 * (randomGradient realMath ix iy).2 = 1 := by
  simp only [randomGradient, realMath]
  rw [← sq, ← sq]
  exact Real.cos_sq_add_sin_sq _

/-- C2: for every fixed `y`, the map `x -> get(x, y)`, each value computed on an
object without cache entries, is continuous on the whole real line; at every
integer `m` the values in the cell on the left tend to the value that the cell
on the right computes at `m`. -/
theorem C2_get_continuous_in_x (y : ℝ) :
    Continuous (fun x : ℝ => (get realMath Perlin.new x y).1)
      ∧ ∀ m : ℤ, Filter.Tendsto (fun x : ℝ => (get realMath Perlin.new x y).1)
          (nhdsWithin (m : ℝ) (Set.Iio (m : ℝ)))
          (nhds (get realMath Perlin.new (m : ℝ) y).1) :=
  ⟨continuous_noise_in_x y,
    fun m => ((continuous_noise_in_x y).tendsto (m : ℝ)).mono_left nhdsWithin_le_nhds⟩

/-- C3 as stated fails: on the 800x600 canvas `thirdEye` at angle 0, time 0 does
not return the point `(454, 354)`. -/
theorem C3_thirdEye_not_454_354 :
    ¬ ((thirdEye realMath (Scene.ofCanvas 800 600) Perlin.new 0 0 0).1 = ((454 : ℝ), (354 : ℝ))) := by
  intro h
  have h2 := congrArg Prod.snd h
  simp only [thirdEye, thirdEyeRadius, realMath, Scene.ofCanvas, Real.sin_zero, Real.cos_zero,
    mul_zero, add_zero, zero_add] at h2
  have hs : Real.sin 1 < 1 := Real.sin_lt (by norm_num)
  have hm : min (800 : ℝ) 600 = 600 := min_eq_right (by norm_num)
  rw [hm] at h2
  nlinarith

/-- C3 amended: the 800x600 canvas gives center `(400, 300)` and `maxRadius = 270`;
`thirdEye` at angle 0, time 0 has radius 54 and returns `(454, 300 + 54 * sin 1)`,
whose second coordinate is strictly below 354, for every audio sample and
every state of the noise object. -/
theorem C3_thirdEye_scenario (p : Perlin ℝ) (frequencyData : ℝ) :
    (Scene.ofCanvas (800 : ℝ) 600).centerX = 400
      ∧ (Scene.ofCanvas (800 : ℝ) 600).centerY = 300
      ∧ (Scene.ofCanvas (800 : ℝ) 600).maxRadius = 270
      ∧ thirdEyeRadius realMath (Scene.ofCanvas 800 600) 0 = 54
      ∧ (thirdEye realMath (Scene.ofCanvas 800 600) p 0 0 frequencyData).1
          = (454, 300 + 54 * Real.sin 1)
      ∧ 300 + 54 * Real.sin 1 < 354 := by
  have hm : min (800 : ℝ) 600 = 600 := min_eq_right (by norm_num)
  have hs : Real.sin 1 < 1 := Real.sin_lt (by norm_num)
  refine ⟨?_, ?_, ?_, ?_, ?_, ?_⟩
  · simp only [Scene.ofCanvas]; norm_num
  · simp only [Scene.ofCanvas]; norm_num
  · simp only [Scene.ofCanvas, hm]; norm_num
  · simp only [thirdEyeRadius, Scene.ofCanvas, hm, realMath, mul_zero, Real.sin_zero]; norm_num
  · simp only [thirdEye, thirdEyeRadius, Scene.ofCanvas, hm, realMath, mul_zero, Real.sin_zero,
      Real.cos_zero, zero_add, add_zero]
    norm_num
  · linarith

/-- C4: from any state whose caches hold only computed entries, `fractal(x, y, time)`
returns the sum over `i = 0..4` of `(1/2)^i * get(x * 2^i + time, y * 2^i + time)`,
where `get` is the value the noise object computes for these arguments. -/
theorem C4_fractal_closed_form (p : Perlin ℝ) (hv : p.Valid realMath) (x y time : ℝ) :
    (fractal realMath p x y time).1
      = ∑ i in Finset.range 5,
          (1 / 2) ^ i * (get realMath Perlin.new (x * 2 ^ i + time) (y * 2 ^ i + time)).1 :=
  fractal_fst realMath p hv x y time

/-- C4 is not vacuous: the fresh object satisfies the hypothesis. -/
theorem C4_fractal_closed_form_witness :
    (Perlin.new : Perlin ℝ).Valid realMath
      ∧ (fractal realMath Perlin.new 0 0 0).1
          = ∑ i in Finset.range 5,
              (1 / 2) ^ i * (get realMath Perlin.new (0 * 2 ^ i + 0) (0 * 2 ^ i + 0)).1 :=
  ⟨new_valid realMath, C4_fractal_closed_form Perlin.new (new_valid realMath) 0 0 0⟩

/-- C5: with a sampler that returns 0 at every coordinate (in every state), the
body of `fractal` returns exactly 0 for every loop bound `octaves`. -/
theorem C5_fractal_zero_noise {σ : Type} (noise : σ → ℝ → ℝ → ℝ × σ)
    (h0 : ∀ s u v, (noise s u v).1 = 0) (octaves : ℕ) (s : σ) (x y time : ℝ) :
    (fractalWith noise octaves s x y time).1 = 0 := by
  have h := (fractalLoop_spec noise (fun _ => True) (fun _ _ => 0)
    (fun s u v _ => ⟨h0 s u v, trivial⟩) x y time octaves s 0 1 1 trivial).1
  simpa [fractalWith] using h

/-- C5 is not vacuous: the constant-zero sampler on a trivial state, 7 octaves. -/
theorem C5_fractal_zero_noise_witness :
    (∀ (s : Unit) (u v : ℝ), ((fun s _ _ => ((0 : ℝ), s)) s u v : ℝ × Unit).1 = 0)
      ∧ (fractalWith (fun (s : Unit) (_ _ : ℝ) => ((0 : ℝ), s)) 7 () 3 4 5).1 = 0 :=
  ⟨fun _ _ _ => rfl,
    C5_fractal_zero_noise (fun (s : Unit) (_ _ : ℝ) => ((0 : ℝ), s)) (fun _ _ _ => rfl) 7 () 3 4 5⟩

/-- C6: `smootherstep(0) = 0`, `smootherstep(1) = 1` and `smootherstep(1/2) = 1/2`. -/
theorem C6_smootherstep_values :
    smootherstep (0 : ℝ) = 0 ∧ smootherstep (1 : ℝ) = 1 ∧ smootherstep (1 / 2 : ℝ) = 1 / 2 := by
  refine ⟨smootherstep_zero, smootherstep_one, ?_⟩
  simp only [smootherstep]
  norm_num

/-- C7: `interpolate(a, b, 0) = a` and `interpolate(a, b, 1) = b` for all `a`, `b`. -/
theorem C7_interpolate_endpoints (a b : ℝ) :
    interpolate a b 0 = a ∧ interpolate a b 1 = b :=
  ⟨interpolate_zero a b, interpolate_one a b⟩

/-- C8: for every center and every `maxRadius >= 0`, each entry of the `shapes`
table (nataraja, drum, trident, thirdEye, om), called with angle 0, time 0 and
audio sample 0 on a noise object whose caches hold only computed entries,
returns a point inside the box of half-width `maxRadius` around the center. -/
theorem C8_shapes_origin_in_box (c : Scene ℝ) (hr : 0 ≤ c.maxRadius) (p : Perlin ℝ)
    (hv : p.Valid realMath) :
    ∀ s ∈ shapes realMath c,
      c.centerX - c.maxRadius ≤ (s.2 p 0 0 0).1.1
        ∧ (s.2 p 0 0 0).1.1 ≤ c.centerX + c.maxRadius
        ∧ c.centerY - c.maxRadius ≤ (s.2 p 0 0 0).1.2
        ∧ (s.2 p 0 0 0).1.2 ≤ c.centerY + c.maxRadius := by
  have hq : 0 ≤ c.maxRadius * 0.25 ∧ c.maxRadius * 0.25 ≤ c.maxRadius := by
    constructor <;> nlinarith
  have ht : 0 ≤ c.maxRadius * 0.3 ∧ c.maxRadius * 0.3 ≤ c.maxRadius := by
    constructor <;> nlinarith
  have he : 0 ≤ c.maxRadius * 0.2 ∧ c.maxRadius * 0.2 ≤ c.maxRadius := by
    constructor <;> nlinarith
  intro s hs
  simp only [shapes, List.mem_cons, List.mem_singleton, List.not_mem_nil, or_false] at hs
  rcases hs with rfl | rfl | rfl | rfl | rfl
  · simp only [nataraja, natarajaRadius, realMath, Real.sin_zero, Real.cos_zero, zero_div,
      add_zero, mul_zero, zero_mul]
    refine ⟨?_, ?_, ?_, ?_⟩ <;> linarith
  · simp only [drum, drumRadius, realMath, Real.sin_zero, mul_zero, add_zero, mul_one]
    have hx := offset_cos_in_box c.centerX _ _
      (0 + (fractal realMath p 0 (0 / 200) 0).1) hq.1 hq.2
    have hy := offset_sin_in_box c.centerY _ _
      (0 + (fractal realMath (fractal realMath p 0 (0 / 200) 0).2 0 (0 / 200) 0).1) hq.1 hq.2
    exact ⟨hx.1, hx.2, hy.1, hy.2⟩
  · have hf := fractal_origin realMath p hv
    simp only [trident, tridentRadius, hf, add_zero, mul_one]
    have hx := offset_cos_in_box c.centerX _ _
      (0 + (fractal realMath (fractal realMath p 0 0 0).2 0 (0 / 100) 0).1) ht.1 ht.2
    have hy := offset_sin_in_box c.centerY _ _
      (0 + (fractal realMath (fractal realMath (fractal realMath p 0 0 0).2 0 (0 / 100) 0).2
        0 (0 / 100) 0).1) ht.1 ht.2
    exact ⟨hx.1, hx.2, hy.1, hy.2⟩
  · simp only [thirdEye, thirdEyeRadius, realMath, Real.sin_zero, mul_zero, add_zero, mul_one]
    have hx := offset_cos_in_box c.centerX _ _ (0 + 0) he.1 he.2
    have hy := offset_sin_in_box c.centerY _ _ (0 + Real.cos 0) he.1 he.2
    simp only [add_zero] at hx
    exact ⟨hx.1, hx.2, hy.1, hy.2⟩
  · simp only [om, omRadius, realMath, Real.sin_zero, mul_zero, add_zero, mul_one]
    have hx := offset_cos_in_box c.centerX _ _
      (0 + (fractal realMath p 0 (0 / 200) 0).1) hq.1 hq.2
    have hy := offset_sin_in_box c.centerY _ _
      (0 + (fractal realMath (fractal realMath p 0 (0 / 200) 0).2 0 (0 / 200) 0).1) hq.1 hq.2
    exact ⟨hx.1, hx.2, hy.1, hy.2⟩

/-- C8 is not vacuous: center `(400, 300)`, `maxRadius = 270`, fresh noise object. -/
theorem C8_shapes_origin_in_box_witness :
    (0 : ℝ) ≤ (Scene.mk 400 300 270 : Scene ℝ).maxRadius
      ∧ (Perlin.new : Perlin ℝ).Valid realMath
      ∧ ∀ s ∈ shapes realMath (Scene.mk 400 300 270 : Scene ℝ),
          (400 : ℝ) - 270 ≤ (s.2 Perlin.new 0 0 0).1.1
            ∧ (s.2 Perlin.new 0 0 0).1.1 ≤ 400 + 270
            ∧ (300 : ℝ) - 270 ≤ (s.2 Perlin.new 0 0 0).1.2
            ∧ (s.2 Perlin.new 0 0 0).1.2 ≤ 300 + 270 :=
  ⟨by norm_num, new_valid realMath,
    C8_shapes_origin_in_box (Scene.mk 400 300 270) (by norm_num) Perlin.new (new_valid realMath)⟩

/-- C9: for all real `x`, `y` the value returned by `get(x, y)` lies in `[-1, 1]`,
from every state of the noise object whose caches hold only computed entries. -/
theorem C9_get_range (p : Perlin ℝ) (hv : p.Valid realMath) (x y : ℝ) :
    -1 ≤ (get realMath p x y).1 ∧ (get realMath p x y).1 ≤ 1 := by
  rw [get_fst realMath p hv x y]
  exact abs_le.mp (abs_noise_le_one x y)

/-- C9 is not vacuous: the fresh object, at the middle of a cell. -/
theorem C9_get_range_witness :
    (Perlin.new : Perlin ℝ).Valid realMath
      ∧ -1 ≤ (get realMath Perlin.new (1 / 2) (1 / 2)).1
      ∧ (get realMath Perlin.new (1 / 2) (1 / 2)).1 ≤ 1 :=
  ⟨new_valid realMath, C9_get_range Perlin.new (new_valid realMath) (1 / 2) (1 / 2)⟩

/-- C10 as stated fails for three of the five shapes, with center `(400, 300)` and
`maxRadius = 270`: `thirdEye` at angle 0, time 0 and `nataraja` at angle 0, time 0,
sample 0 are not `center + radius * (cos(angle + phi), sin(angle + phi))` for any
`phi`, and the radius of `trident` is not `maxRadius * k * (1 + trig(n * angle))`
for any `k`, `n` and `trig`, because at angle 0 it differs between time 0 and
time 1/256. -/
theorem C10_pattern_fails :
    (¬ ∃ φ : ℝ,
      (thirdEye realMath (Scene.mk 400 300 270) Perlin.new 0 0 0).1
        = (400 + thirdEyeRadius realMath (Scene.mk 400 300 270) 0 * Real.cos (0 + φ),
           300 + thirdEyeRadius realMath (Scene.mk 400 300 270) 0 * Real.sin (0 + φ)))
    ∧ (¬ ∃ φ : ℝ,
      (nataraja realMath (Scene.mk 400 300 270) Perlin.new 0 0 0).1
        = (400 + natarajaRadius realMath (Scene.mk 400 300 270) 0 * Real.cos (0 + φ),
           300 + natarajaRadius realMath (Scene.mk 400 300 270) 0 * Real.sin (0 + φ)))
    ∧ (¬ ∃ (k n : ℝ) (trig : ℝ → ℝ), ∀ angle time : ℝ,
      (tridentRadius realMath (Scene.mk 400 300 270) Perlin.new angle time).1
        = 270 * k * (1 + trig (n * angle))) :=
  ⟨thirdEye_no_single_phase (Scene.mk 400 300 270) (by norm_num) Perlin.new 0,
    nataraja_no_phase (Scene.mk 400 300 270) (by norm_num) Perlin.new,
    trident_radius_not_pattern (Scene.mk 400 300 270) (by norm_num) Perlin.new
      (new_valid realMath)⟩

/-- C10 amended: `drum` and `om` follow the pattern with `k = 0.25`, `n = 4`, `sin`
and the single phase `fractal(angle, sample/200, time)`. The other three do not
when `maxRadius` is not 0. `thirdEye` has the radius pattern (`k = 0.2`, `n = 3`,
`sin`) but phase `sin(time)` in x and `cos(time)` in y, and at angle 0, time 0 no
single phase gives its point. `nataraja` has the radius pattern (`k = 0.35`,
`n = 3`, `cos`) but scales `radius * cos(angle)` by `sin(time + sample/255)` and
`radius * sin(angle)` by `cos(time + sample/255)`, and at angle 0, time 0,
sample 0 no phase gives its point. `trident` has the single phase
`fractal(angle, sample/100, time)` but the radius
`maxRadius * 0.3 * (1 + fractal(angle, time, time))`, which is not
`maxRadius * k * (1 + trig(n * angle))` for any `k`, `n`, `trig`. -/
theorem C10_shape_patterns (c : Scene ℝ) (p : Perlin ℝ) (hv : p.Valid realMath)
    (t time frequencyData : ℝ) :
    (natarajaRadius realMath c t = c.maxRadius * 0.35 * (1 + Real.cos (3 * t))
      ∧ (nataraja realMath c p t time frequencyData).1
          = (c.centerX + natarajaRadius realMath c t * Real.cos t
                * Real.sin (time + frequencyData / 255),
             c.centerY + natarajaRadius realMath c t * Real.sin t
                * Real.cos (time + frequencyData / 255)))
    ∧ (drumRadius realMath c t = c.maxRadius * 0.25 * (1 + Real.sin (4 * t))
      ∧ (drum realMath c p t time frequencyData).1
          = (c.centerX + drumRadius realMath c t
                * Real.cos (t + (fractal realMath p t (frequencyData / 200) time).1),
             c.centerY + drumRadius realMath c t
                * Real.sin (t + (fractal realMath p t (frequencyData / 200) time).1)))
    ∧ ((tridentRadius realMath c p t time).1
          = c.maxRadius * 0.3 * (1 + (fractal realMath p t time time).1)
      ∧ (trident realMath c p t time frequencyData).1
          = (c.centerX + (tridentRadius realMath c p t time).1
                * Real.cos (t + (fractal realMath p t (frequencyData / 100) time).1),
             c.centerY + (tridentRadius realMath c p t time).1
                * Real.sin (t + (fractal realMath p t (frequencyData / 100) time).1)))
    ∧ (thirdEyeRadius realMath c t = c.maxRadius * 0.2 * (1 + Real.sin (3 * t))
      ∧ (thirdEye realMath c p t time frequencyData).1
          = (c.centerX + thirdEyeRadius realMath c t * Real.cos (t + Real.sin time),
             c.centerY + thirdEyeRadius realMath c t * Real.sin (t + Real.cos time)))
    ∧ (omRadius realMath c t = c.maxRadius * 0.25 * (1 + Real.sin (4 * t))
      ∧ (om realMath c p t time frequencyData).1
          = (c.centerX + omRadius realMath c t
                * Real.cos (t + (fractal realMath p t (frequencyData / 200) time).1),
             c.centerY + omRadius realMath c t
                * Real.sin (t + (fractal realMath p t (frequencyData / 200) time).1)))
    ∧ (c.maxRadius ≠ 0 →
        (¬ ∃ φ : ℝ,
          (thirdEye realMath c p 0 0 frequencyData).1
            = (c.centerX + thirdEyeRadius realMath c 0 * Real.cos (0 + φ),
               c.centerY + thirdEyeRadius realMath c 0 * Real.sin (0 + φ)))
        ∧ (¬ ∃ φ : ℝ,
          (nataraja realMath c p 0 0 0).1
            = (c.centerX + natarajaRadius realMath c 0 * Real.cos (0 + φ),
               c.centerY + natarajaRadius realMath c 0 * Real.sin (0 + φ)))
        ∧ (¬ ∃ (k n : ℝ) (trig : ℝ → ℝ), ∀ angle time2 : ℝ,
          (tridentRadius realMath c p angle time2).1
            = c.maxRadius * k * (1 + trig (n * angle)))) := by
  have v1 := fractal_valid realMath p hv t (frequencyData / 200) time
  have e1 := fractal_fst_congr realMath _ p v1 hv t (frequencyData / 200) time
  have v0 := fractal_valid realMath p hv t time time
  have w1 := fractal_valid realMath _ v0 t (frequencyData / 100) time
  have e2 := fractal_fst_congr realMath _ p v0 hv t (frequencyData / 100) time
  have e3 := fractal_fst_congr realMath _ p w1 hv t (frequencyData / 100) time
  refine ⟨⟨rfl, rfl⟩, ⟨rfl, ?_⟩, ⟨rfl, ?_⟩, ⟨rfl, rfl⟩, ⟨rfl, ?_⟩, ?_⟩
  · simp only [drum]
    rw [e1]
    rfl
  · simp only [trident, tridentRadius]
    rw [e3, e2]
    rfl
  · simp only [om]
    rw [e1]
    rfl
  · intro hR
    exact ⟨thirdEye_no_single_phase c hR p frequencyData, nataraja_no_phase c hR p,
      trident_radius_not_pattern c hR p hv⟩

/-- C10 amended is not vacuous: center `(400, 300)`, `maxRadius = 270`, fresh noise
object; `drum` follows the pattern and the radius of `trident` does not. -/
theorem C10_shape_patterns_witness :
    (Perlin.new : Perlin ℝ).Valid realMath
      ∧ (Scene.mk 400 300 270 : Scene ℝ).maxRadius ≠ 0
      ∧ (drum realMath (Scene.mk 400 300 270) Perlin.new 0 0 0).1
          = (400 + drumRadius realMath (Scene.mk 400 300 270) 0
                * Real.cos (0 + (fractal realMath Perlin.new 0 (0 / 200) 0).1),
             300 + drumRadius realMath (Scene.mk 400 300 270) 0
                * Real.sin (0 + (fractal realMath Perlin.new 0 (0 / 200) 0).1))
      ∧ (¬ ∃ (k n : ℝ) (trig : ℝ → ℝ), ∀ angle time2 : ℝ,
          (tridentRadius realMath (Scene.mk 400 300 270) Perlin.new angle time2).1
            = 270 * k * (1 + trig (n * angle))) :=
  ⟨new_valid realMath, by norm_num,
    (C10_shape_patterns (Scene.mk 400 300 270) Perlin.new (new_valid realMath) 0 0 0).2.1.2,
    ((C10_shape_patterns (Scene.mk 400 300 270) Perlin.new (new_valid realMath) 0 0
      0).2.2.2.2.2 (by norm_num)).2.2⟩

/-- C11: starting from a fresh `Perlin` object, after any sequence of `get` calls
every gradient-cache entry at `(ix, iy)` is `randomGradient(ix, iy)` and every
value-cache entry at `(x, y)` is the cache-free value; `get(x, y)` then returns
the cache-free value, a stored gradient stays what it is through any further
calls, and calling `get` twice with the same arguments returns the same result. -/
theorem C11_cache_transparent (calls : List (ℝ × ℝ)) :
    (∀ ix iy g, (getAll realMath Perlin.new calls).gradients (ix, iy) = some g →
        g = randomGradient realMath ix iy)
    ∧ (∀ x y v, (getAll realMath Perlin.new calls).memory (x, y) = some v →
        v = (get realMath Perlin.new x y).1)
    ∧ (∀ x y, (get realMath (getAll realMath Perlin.new calls) x y).1
        = (get realMath Perlin.new x y).1)
    ∧ (∀ (more : List (ℝ × ℝ)) ix iy g,
        (getAll realMath Perlin.new calls).gradients (ix, iy) = some g →
        (getAll realMath (getAll realMath Perlin.new calls) more).gradients (ix, iy) = some g)
    ∧ (∀ x y,
        (get realMath (get realMath (getAll realMath Perlin.new calls) x y).2 x y).1
          = (get realMath (getAll realMath Perlin.new calls) x y).1) := by
  have hv := getAll_valid realMath calls Perlin.new (new_valid realMath)
  refine ⟨fun ix iy g h => hv.1 (ix, iy) g h, fun x y v h => hv.2 (x, y) v h,
    fun x y => get_fst realMath _ hv x y,
    fun more ix iy g h => getAll_gradients_keep realMath more _ (ix, iy) g h, ?_⟩
  intro x y
  rw [get_fst realMath _ (get_valid realMath _ hv x y) x y, get_fst realMath _ hv x y]

/-- C11 is not vacuous: after `get(1/2, 1/2)` on the fresh object the value cache
has an entry at `(1/2, 1/2)`, and the next call returns the cache-free value. -/
theorem C11_cache_transparent_witness :
    (getAll realMath Perlin.new [((1 / 2 : ℝ), (1 / 2 : ℝ))]).memory (1 / 2, 1 / 2)
        = some (get realMath Perlin.new (1 / 2) (1 / 2)).1
    ∧ (get realMath (getAll realMath Perlin.new [((1 / 2 : ℝ), (1 / 2 : ℝ))]) (1 / 2) (1 / 2)).1
        = (get realMath Perlin.new (1 / 2) (1 / 2)).1 :=
  ⟨get_memory_self realMath Perlin.new (1 / 2) (1 / 2),
    (C11_cache_transparent [((1 / 2 : ℝ), (1 / 2 : ℝ))]).2.2.1 (1 / 2) (1 / 2)⟩

/-- C12: one call of `animate` issues exactly 5 `stroke()` calls, the stroke colours
set in the frame are the palette `colors` in its own order, the palette has 5
pairwise different entries with `colors[i mod 5] = colors[i]` for `i = 0..4`,
and the frame consists of the three opening calls followed by one `drawThread`
per entry of `shapes`, in table order, with data bin `i` and colour `i`. -/
theorem C12_frame_strokes (c : Scene ℝ) (w h : ℝ) (dataArray : Fin bufferLength → ℕ)
    (currentTime : ℕ → ℝ) (p : Perlin ℝ) :
    ((animate realMath c w h dataArray currentTime p).1.filter Cmd.isStroke).length = 5
    ∧ (animate realMath c w h dataArray currentTime p).1.filterMap Cmd.strokeColor = colors
    ∧ (shapes realMath c).length = 5
    ∧ colors.length = 5
    ∧ colors.Nodup
    ∧ (∀ i : Fin 5, colors.get ⟨i.val % colors.length, Nat.mod_lt _ (by decide)⟩
        = colors.get ⟨i.val, i.isLt⟩)
    ∧ (animate realMath c w h dataArray currentTime p).1
        = (let d0 := drawThread realMath (currentTime 0) p
              ((dataArray ⟨0, by decide⟩ : ℕ) : ℝ) "#ff00ff" (nataraja realMath c)
           let d1 := drawThread realMath (currentTime 1) d0.2
              ((dataArray ⟨1, by decide⟩ : ℕ) : ℝ) "#00ffff" (drum realMath c)
           let d2 := drawThread realMath (currentTime 2) d1.2
              ((dataArray ⟨2, by decide⟩ : ℕ) : ℝ) "#00ff00" (trident realMath c)
           let d3 := drawThread realMath (currentTime 3) d2.2
              ((dataArray ⟨3, by decide⟩ : ℕ) : ℝ) "#ff0000" (thirdEye realMath c)
           let d4 := drawThread realMath (currentTime 4) d3.2
              ((dataArray ⟨4, by decide⟩ : ℕ) : ℝ) "#ffff00" (om realMath c)
           [Cmd.requestAnimationFrame, Cmd.clearRect 0 0 w h, Cmd.getByteFrequencyData]
              ++ d0.1 ++ d1.1 ++ d2.1 ++ d3.1 ++ d4.1) := by
  have hu := animate_unfold realMath c w h dataArray currentTime p
  refine ⟨?_, ?_, rfl, rfl, by decide, ?_, ?_⟩
  · rw [hu]
    simp only [List.filter_append, drawThread_strokes]
    simp [List.filter, Cmd.isStroke]
  · rw [hu]
    simp only [List.filterMap_append, drawThread_colors]
    simp [List.filterMap, Cmd.strokeColor, colors]
  · intro i
    fin_cases i <;> rfl
  · rw [hu]
    simp only [List.append_nil, List.append_assoc]

/-- C13: from the loaded page (`isPlaying = false`) any number `n + 1` of clicks
performs the start actions exactly once, in source order, and they are those
of the first click; no clicks perform nothing; afterwards `isPlaying` is true and
a further click changes nothing and performs nothing; after any click
`isPlaying` is true, and the resize handler does not touch it. -/
theorem C13_start_fires_once (w h : ℝ) (n : ℕ) :
    (Page.load w h).isPlaying = false
    ∧ (Page.clicks 0 (Page.load w h)).2 = []
    ∧ (Page.clicks (n + 1) (Page.load w h)).2
        = [Action.resume, Action.play, Action.animate, Action.hideStartButton]
    ∧ (Page.load w h).onClick.2
        = [Action.resume, Action.play, Action.animate, Action.hideStartButton]
    ∧ (Page.clicks (n + 1) (Page.load w h)).1.isPlaying = true
    ∧ (Page.clicks (n + 1) (Page.load w h)).1.onClick
        = ((Page.clicks (n + 1) (Page.load w h)).1, [])
    ∧ (∀ pg : Page ℝ, pg.onClick.1.isPlaying = true)
    ∧ (∀ (pg : Page ℝ) (w2 h2 : ℝ), (pg.onResize w2 h2).isPlaying = pg.isPlaying) := by
  refine ⟨rfl, rfl, ?_, ?_, ?_, ?_, onClick_isPlaying, fun _ _ _ => rfl⟩
  · rw [clicks_succ_load]
  · simp [Page.onClick, Page.load]
  · rw [clicks_succ_load]
  · rw [clicks_succ_load]
    exact onClick_of_playing _ rfl

/-- C14, the script at the failing input: loaded at 800x600 and then resized to
1000x400, the canvas is 1000x400 but the constants are still those of 800x600,
`(400, 300)` and 270, while 1000x400 would give `(500, 200)` and 180. -/
theorem C14_resize_keeps_constants :
    ((Page.load (800 : ℝ) 600).onResize 1000 400).canvasWidth = 1000
    ∧ ((Page.load (800 : ℝ) 600).onResize 1000 400).canvasHeight = 400
    ∧ ((Page.load (800 : ℝ) 600).onResize 1000 400).scene = Scene.mk 400 300 270
    ∧ Scene.ofCanvas (1000 : ℝ) 400 = Scene.mk 500 200 180 := by
  have hm : min (800 : ℝ) 600 = 600 := min_eq_right (by norm_num)
  have hm2 : min (1000 : ℝ) 400 = 400 := min_eq_right (by norm_num)
  refine ⟨rfl, rfl, ?_, ?_⟩
  · simp only [Page.onResize, Page.load, Scene.ofCanvas, hm]
    norm_num
  · simp only [Scene.ofCanvas, hm2]
    norm_num

/-- C15: the loop of `drawThread` is a total function; started at 0 it evaluates the
curve function exactly at the 629 angles `0.01 * k`, `k = 0..628`, in order:
the first is 0, consecutive ones differ by 0.01, the last is 6.28, and
`6.28 < 2 * pi < 6.29`. -/
theorem C15_trace_angles (func : CurveFn ℝ) (time frequencyData : ℝ) (p : Perlin ℝ) :
    traceLoop realMath func time frequencyData 0 p
        = evalAt func time frequencyData
            ((List.range 629).map (fun k : ℕ => 0.01 * (k : ℝ))) p
    ∧ (traceLoop realMath func time frequencyData 0 p).1.length = 629
    ∧ (0.01 * ((0 : ℕ) : ℝ) = 0)
    ∧ (∀ k : ℕ, 0.01 * ((k + 1 : ℕ) : ℝ) - 0.01 * (k : ℝ) = 0.01)
    ∧ (0.01 * ((628 : ℕ) : ℝ) = 6.28)
    ∧ (6.28 : ℝ) < realMath.PI * 2
    ∧ realMath.PI * 2 < (6.29 : ℝ) := by
  have hb := two_pi_bounds
  have hrun : traceLoop realMath func time frequencyData 0 p
      = evalAt func time frequencyData
          ((List.range 629).map (fun k : ℕ => 0.01 * (k : ℝ))) p := by
    have h := traceLoop_eq_evalAt realMath func time frequencyData 629 0 p
      (fun k hk => by
        have hk' : (k : ℝ) ≤ 628 := by exact_mod_cast Nat.lt_succ_iff.mp hk
        have : realMath.PI = Real.pi := rfl
        rw [this]
        linarith [hb.1])
      (by
        have : realMath.PI = Real.pi := rfl
        rw [this]
        norm_num
        linarith [hb.2])
    simpa using h
  refine ⟨hrun, ?_, by norm_num, ?_, by norm_num, hb.1, hb.2⟩
  · rw [hrun, evalAt_length]
    simp
  · intro k
    push_cast
    ring

/-- C16: the first and the second derivative of `smootherstep` vanish at 0 and at 1. -/
theorem C16_smootherstep_flat_ends :
    deriv (smootherstep : ℝ → ℝ) 0 = 0
    ∧ deriv (smootherstep : ℝ → ℝ) 1 = 0
    ∧ deriv (deriv (smootherstep : ℝ → ℝ)) 0 = 0
    ∧ deriv (deriv (smootherstep : ℝ → ℝ)) 1 = 0 := by
  refine ⟨?_, ?_, ?_, ?_⟩
  · rw [(hasDerivAt_smootherstep 0).deriv]; norm_num
  · rw [(hasDerivAt_smootherstep 1).deriv]; norm_num
  · rw [(hasDerivAt_deriv_smootherstep 0).deriv]; norm_num
  · rw [(hasDerivAt_deriv_smootherstep 1).deriv]; norm_num

/-- C17: on every state whose caches hold only computed entries, `fractal(x, y, time)`
is the sum of `get` at the frequencies 1, 2, 4, 8, 16 with the amplitudes
1, 1/2, 1/4, 1/8, 1/16, which sum to 1.9375; if `|get(u, v)| <= B` for all `u`, `v`
then `|fractal(x, y, time)| <= 1.9375 * B`, and if `get` is the constant `c` then
`fractal` is `1.9375 * c`. The same bound and value hold for the loop of `fractal`
run with any other sampler. -/
theorem C17_fractal_superposition (M : MathLib ℝ) (p : Perlin ℝ) (hv : p.Valid M)
    (x y time : ℝ) :
    (fractal M p x y time).1
        = 1 * (get M Perlin.new (x * 1 + time) (y * 1 + time)).1
          + 1 / 2 * (get M Perlin.new (x * 2 + time) (y * 2 + time)).1
          + 1 / 4 * (get M Perlin.new (x * 4 + time) (y * 4 + time)).1
          + 1 / 8 * (get M Perlin.new (x * 8 + time) (y * 8 + time)).1
          + 1 / 16 * (get M Perlin.new (x * 16 + time) (y * 16 + time)).1
    ∧ (1 + 1 / 2 + 1 / 4 + 1 / 8 + 1 / 16 : ℝ) = 1.9375
    ∧ (∀ B : ℝ, (∀ u v, |(get M Perlin.new u v).1| ≤ B) →
        |(fractal M p x y time).1| ≤ 1.9375 * B)
    ∧ (∀ c : ℝ, (∀ u v, (get M Perlin.new u v).1 = c) →
        (fractal M p x y time).1 = 1.9375 * c)
    ∧ (∀ (σ : Type) (noise : σ → ℝ → ℝ → ℝ × σ) (s : σ),
        (∀ B : ℝ, (∀ s u v, |(noise s u v).1| ≤ B) →
          |(fractalWith noise 5 s x y time).1| ≤ 1.9375 * B)
        ∧ (∀ c : ℝ, (∀ s u v, (noise s u v).1 = c) →
          (fractalWith noise 5 s x y time).1 = 1.9375 * c)) := by
  have hsum : (fractal M p x y time).1
      = 1 * noise M (x * 1 + time) (y * 1 + time)
        + 1 / 2 * noise M (x * 2 + time) (y * 2 + time)
        + 1 / 4 * noise M (x * 4 + time) (y * 4 + time)
        + 1 / 8 * noise M (x * 8 + time) (y * 8 + time)
        + 1 / 16 * noise M (x * 16 + time) (y * 16 + time) := by
    rw [fractal_fst M p hv]
    simp only [Finset.sum_range_succ, Finset.sum_range_zero]
    norm_num
  refine ⟨hsum, by norm_num, ?_, ?_, ?_⟩
  · intro B hB
    exact abs_fractal_le M B hB p hv x y time
  · intro c hc
    have hn : ∀ u v, noise M u v = c := hc
    rw [hsum, hn, hn, hn, hn, hn]
    norm_num
    ring
  · intro σ noise s
    refine ⟨fun B hB => fractalWith_five_bound noise B hB s x y time, ?_⟩
    intro c hc
    have h := (fractalLoop_spec noise (fun _ => True) (fun _ _ => c)
      (fun s u v _ => ⟨hc s u v, trivial⟩) x y time 5 s 0 1 1 trivial).1
    simp only [Finset.sum_range_succ, Finset.sum_range_zero] at h
    rw [fractalWith, h]
    norm_num
    ring

/-- C17 is not vacuous: `perlin.get` is bounded by 1, so `fractal` by 1.9375; the
sampler that always returns 2 gives `1.9375 * 2`; with `Math` functions that
return 0 the noise is the constant 0 and `fractal` is `1.9375 * 0`. -/
theorem C17_fractal_superposition_witness :
    (Perlin.new : Perlin ℝ).Valid realMath
    ∧ (∀ u v : ℝ, |(get realMath Perlin.new u v).1| ≤ 1)
    ∧ |(fractal realMath Perlin.new 3 4 5).1| ≤ 1.9375 * 1
    ∧ (∀ (s : Unit) (u v : ℝ), ((fun (s : Unit) (_ _ : ℝ) => ((2 : ℝ), s)) s u v).1 = 2)
    ∧ (fractalWith (fun (s : Unit) (_ _ : ℝ) => ((2 : ℝ), s)) 5 () 3 4 5).1 = 1.9375 * 2
    ∧ (∀ u v : ℝ, (get (MathLib.mk (fun _ => 0) (fun _ => 0) 0) Perlin.new u v).1 = (0 : ℝ))
    ∧ (fractal (MathLib.mk (fun _ => 0) (fun _ => 0) 0) Perlin.new (3 : ℝ) 4 5).1 = 1.9375 * 0 :=
  ⟨new_valid realMath, abs_noise_le_one,
    (C17_fractal_superposition realMath Perlin.new (new_valid realMath) 3 4 5).2.2.1 1
      abs_noise_le_one,
    fun _ _ _ => rfl,
    ((C17_fractal_superposition realMath Perlin.new (new_valid realMath) 3 4 5).2.2.2.2
      Unit (fun (s : Unit) (_ _ : ℝ) => ((2 : ℝ), s)) ()).2 2 (fun _ _ _ => rfl),
    fun u v => by
      have h := noise_eq_cellValue (MathLib.mk (fun _ => 0) (fun _ => 0) (0 : ℝ)) u v
      simp only [noise] at h
      rw [h]
      simp [cellValue, randomGradient, interpolate],
    (C17_fractal_superposition (MathLib.mk (fun _ => 0) (fun _ => 0) 0) Perlin.new
      (new_valid _) 3 4 5).2.2.2.1 0 (fun u v => by
        have h := noise_eq_cellValue (MathLib.mk (fun _ => 0) (fun _ => 0) (0 : ℝ)) u v
        simp only [noise] at h
        rw [h]
        simp [cellValue, randomGradient, interpolate])⟩

/-- C18: for all integers `m`, `n` the call `get(m, n)` returns 0, for any `Math`
functions and any content of the gradient cache, provided the value cache holds
only computed entries; if the gradient cache does so too, `fractal(m, n, k)`
is 0 for all integers `m`, `n`, `k`. -/
theorem C18_noise_zero_on_lattice (M : MathLib ℝ) (p : Perlin ℝ) (hm : p.MemValid M)
    (m n k : ℤ) :
    (get M p (m : ℝ) (n : ℝ)).1 = 0
    ∧ (p.GradValid M → (fractal M p (m : ℝ) (n : ℝ) (k : ℝ)).1 = 0) :=
  ⟨get_lattice M p hm m n, fun hg => fractal_lattice M p ⟨hg, hm⟩ m n k⟩

/-- C18 is not vacuous: the fresh object at `(3, -2)` and time 7. -/
theorem C18_noise_zero_on_lattice_witness :
    (Perlin.new : Perlin ℝ).MemValid realMath
    ∧ (Perlin.new : Perlin ℝ).GradValid realMath
    ∧ (get realMath Perlin.new ((3 : ℤ) : ℝ) ((-2 : ℤ) : ℝ)).1 = 0
    ∧ (fractal realMath Perlin.new ((3 : ℤ) : ℝ) ((-2 : ℤ) : ℝ) ((7 : ℤ) : ℝ)).1 = 0 :=
  ⟨new_memValid realMath, new_gradValid realMath,
    (C18_noise_zero_on_lattice realMath Perlin.new (new_memValid realMath) 3 (-2) 7).1,
    (C18_noise_zero_on_lattice realMath Perlin.new (new_memValid realMath) 3 (-2) 7).2
      (new_gradValid realMath)⟩

/-- C19: for `maxRadius >= 0`, every angle, time and audio sample, each entry of
`shapes`, called on a noise object whose caches hold only computed entries,
returns a point `(x, y)` with `|x - centerX| <= maxRadius` and
`|y - centerY| <= maxRadius`. -/
theorem C19_shapes_in_box (c : Scene ℝ) (hr : 0 ≤ c.maxRadius) (p : Perlin ℝ)
    (hv : p.Valid realMath) (t time frequencyData : ℝ) :
    ∀ s ∈ shapes realMath c,
      |(s.2 p t time frequencyData).1.1 - c.centerX| ≤ c.maxRadius
        ∧ |(s.2 p t time frequencyData).1.2 - c.centerY| ≤ c.maxRadius := by
  have hdrum : |c.maxRadius * 0.25 * (1 + Real.sin (4 * t))| ≤ c.maxRadius :=
    abs_radius_le _ _ _ 1 hr (by norm_num) (Real.abs_sin_le_one _) (by norm_num)
  have heye : |c.maxRadius * 0.2 * (1 + Real.sin (3 * t))| ≤ c.maxRadius :=
    abs_radius_le _ _ _ 1 hr (by norm_num) (Real.abs_sin_le_one _) (by norm_num)
  have hnat : |c.maxRadius * 0.35 * (1 + Real.cos (3 * t))| ≤ c.maxRadius :=
    abs_radius_le _ _ _ 1 hr (by norm_num) (Real.abs_cos_le_one _) (by norm_num)
  have hF : |(fractal realMath p t time time).1| ≤ 1.9375 := by
    have := abs_fractal_le realMath 1 abs_noise_le_one p hv t time time
    linarith
  have htri : |c.maxRadius * 0.3 * (1 + (fractal realMath p t time time).1)| ≤ c.maxRadius :=
    abs_radius_le _ _ _ 1.9375 hr (by norm_num) hF (by norm_num)
  intro s hs
  simp only [shapes, List.mem_cons, List.mem_singleton, List.not_mem_nil, or_false] at hs
  rcases hs with rfl | rfl | rfl | rfl | rfl
  · simp only [nataraja, natarajaRadius, realMath]
    constructor
    · rw [mul_assoc]
      have h1 := Real.abs_cos_le_one t
      have h2 := Real.abs_sin_le_one (time + frequencyData / 255)
      have h3 : |Real.cos t * Real.sin (time + frequencyData / 255)| ≤ 1 := by
        rw [abs_mul]
        calc |Real.cos t| * |Real.sin (time + frequencyData / 255)| ≤ 1 * 1 :=
            mul_le_mul h1 h2 (abs_nonneg _) zero_le_one
          _ = 1 := one_mul 1
      rw [add_sub_cancel_left, abs_mul]
      calc |c.maxRadius * 0.35 * (1 + Real.cos (3 * t))|
            * |Real.cos t * Real.sin (time + frequencyData / 255)|
          ≤ c.maxRadius * 1 := mul_le_mul hnat h3 (abs_nonneg _) hr
        _ = c.maxRadius := mul_one _
    · rw [mul_assoc]
      have h1 := Real.abs_sin_le_one t
      have h2 := Real.abs_cos_le_one (time + frequencyData / 255)
      have h3 : |Real.sin t * Real.cos (time + frequencyData / 255)| ≤ 1 := by
        rw [abs_mul]
        calc |Real.sin t| * |Real.cos (time + frequencyData / 255)| ≤ 1 * 1 :=
            mul_le_mul h1 h2 (abs_nonneg _) zero_le_one
          _ = 1 := one_mul 1
      rw [add_sub_cancel_left, abs_mul]
      calc |c.maxRadius * 0.35 * (1 + Real.cos (3 * t))|
            * |Real.sin t * Real.cos (time + frequencyData / 255)|
          ≤ c.maxRadius * 1 := mul_le_mul hnat h3 (abs_nonneg _) hr
        _ = c.maxRadius := mul_one _
  · simp only [drum, drumRadius, realMath]
    exact ⟨abs_offset_cos_le _ _ _ _ hdrum, abs_offset_sin_le _ _ _ _ hdrum⟩
  · simp only [trident, tridentRadius]
    exact ⟨abs_offset_cos_le _ _ _ _ htri, abs_offset_sin_le _ _ _ _ htri⟩
  · simp only [thirdEye, thirdEyeRadius, realMath]
    exact ⟨abs_offset_cos_le _ _ _ _ heye, abs_offset_sin_le _ _ _ _ heye⟩
  · simp only [om, omRadius, realMath]
    exact ⟨abs_offset_cos_le _ _ _ _ hdrum, abs_offset_sin_le _ _ _ _ hdrum⟩

/-- C19 is not vacuous: center `(400, 300)`, `maxRadius = 270`, fresh noise object,
angle 1, time 2, audio sample 128. -/
theorem C19_shapes_in_box_witness :
    (0 : ℝ) ≤ (Scene.mk 400 300 270 : Scene ℝ).maxRadius
      ∧ (Perlin.new : Perlin ℝ).Valid realMath
      ∧ ∀ s ∈ shapes realMath (Scene.mk 400 300 270 : Scene ℝ),
          |(s.2 Perlin.new 1 2 128).1.1 - 400| ≤ (270 : ℝ)
            ∧ |(s.2 Perlin.new 1 2 128).1.2 - 300| ≤ (270 : ℝ) :=
  ⟨by norm_num, new_valid realMath,
    C19_shapes_in_box (Scene.mk 400 300 270) (by norm_num) Perlin.new (new_valid realMath)
      1 2 128⟩

/-- C20: entries 1 and 4 of `shapes` are `drum` and `om`, and these return the same
point and the same noise state for all arguments; every entry of the table is
one of the four functions `nataraja`, `drum`, `trident`, `thirdEye`. -/
theorem C20_drum_is_om (c : Scene ℝ) :
    (shapes realMath c).get? 1 = some ("drum", drum realMath c)
    ∧ (shapes realMath c).get? 4 = some ("om", om realMath c)
    ∧ (∀ (p : Perlin ℝ) (t time frequencyData : ℝ),
        drum realMath c p t time frequencyData = om realMath c p t time frequencyData)
    ∧ (∀ s ∈ shapes realMath c,
        s.2 = nataraja realMath c ∨ s.2 = drum realMath c ∨ s.2 = trident realMath c
          ∨ s.2 = thirdEye realMath c) := by
  refine ⟨rfl, rfl, fun _ _ _ _ => rfl, ?_⟩
  intro s hs
  simp only [shapes, List.mem_cons, List.mem_singleton, List.not_mem_nil, or_false] at hs
  rcases hs with rfl | rfl | rfl | rfl | rfl
  · exact Or.inl rfl
  · exact Or.inr (Or.inl rfl)
  · exact Or.inr (Or.inr (Or.inl rfl))
  · exact Or.inr (Or.inr (Or.inr rfl))
  · exact Or.inr (Or.inl rfl)


end ShivaTandav
